import Mathlib

/-!
# DownOnly: the rate-limited download engine and its policy state machine

A shallow embedding of `main.go`.

Conventions of the embedding.

* Go `int` and `int64` are `Int`, wrapped into the signed 64-bit range by
  `toInt64` wherever the source does arithmetic; `uint64` is `Nat`, reduced
  modulo `2 ^ 64` wherever the source does arithmetic.
* Go strings are `String`; the library calls `strings.Split`,
  `strings.HasPrefix` and `strconv.Atoi` act on the list of characters, and
  `truncateURL`, which cuts at a byte offset, on the UTF-8 bytes.
* `map[string]uint64` is a key/value list with at most one pair per key.
* Every reading of the wall clock (`time.Now`) is an explicit argument. In
  the read loop the monotonic clock is a count of nanoseconds that moves only
  while `Read` blocks and while the loop sleeps.
* The goroutines share `App` under one mutex, so each critical section is
  atomic; what the other goroutines do between two critical sections of the
  read loop or of the tracker is an explicit argument of type `App → App`.
* `float64` values are non-negative rationals `num / den`; the arithmetic
  rounds to the nearest double, ties to even (`f64Round`).
* A log entry records which message was written and the values put into it
  instead of the rendered text. Writing the three records to disk (`saveConfig`,
  `saveStats`, `saveLogs`) changes no field of `App` and is left out.
-/

namespace DownOnly

/-! # The program

## Machine integers -/

/-- Two's-complement wrap of an integer into the range of `int64`. -/
def toInt64 (z : Int) : Int := (z + 2 ^ 63) % 2 ^ 64 - 2 ^ 63

/-- Conversion `uint64(x)` of a Go `int`. -/
def toUint64 (z : Int) : Nat := (z % 2 ^ 64).toNat

/-- Largest value of `int64`. -/
def maxInt64 : Int := 2 ^ 63 - 1

/-- Smallest value of `int64`. -/
def minInt64 : Int := -(2 ^ 63)

/-! ## Library calls on strings -/

/-- `strings.Split(s, ":")` on the characters of `s`: the pieces between the
separators, one more than there are separators. -/
def splitColon : List Char → List (List Char)
  | [] => [[]]
  | c :: cs =>
    if c = ':' then [] :: splitColon cs
    else
      match splitColon cs with
      | p :: ps => (c :: p) :: ps
      | [] => [[c]]

/-- Value of a decimal digit, `none` for any other character. -/
def digitVal (c : Char) : Option Nat :=
  if '0' ≤ c ∧ c ≤ '9' then some (c.toNat - '0'.toNat) else none

/-- How the digit loop of `strconv.ParseUint` ends. -/
inductive Scan where
  | value (n : Nat)
  | syntaxError
  | rangeError
  deriving DecidableEq, Repr

/-- The digit loop of `strconv.ParseUint(s, 10, 64)`, with `n` the value of
the digits read so far: a character that is not a decimal digit is a syntax
error; a digit that takes the value past `2 ^ 64 - 1` is a range error,
reported at once, whatever follows it. -/
def parseUint : Nat → List Char → Scan
  | n, [] => Scan.value n
  | n, c :: cs =>
    match digitVal c with
    | none => Scan.syntaxError
    | some d =>
      if n ≥ (2 ^ 64 - 1) / 10 + 1 then Scan.rangeError
      else if n * 10 + d > 2 ^ 64 - 1 then Scan.rangeError
      else parseUint (n * 10 + d) cs

/-- Split off an optional leading sign: whether it is a minus, and the rest. -/
def signAndBody : List Char → Bool × List Char
  | '-' :: r => (true, r)
  | '+' :: r => (false, r)
  | r => (false, r)

/-- `strconv.Atoi`: the value and whether an error was reported. An optional
sign followed by one or more decimal digits; a syntax error yields `0`; a
range error of the digit loop, or a value outside `int64`, yields the nearest
bound of `int64`. (The shortcut `Atoi` takes for strings of fewer than 19
bytes gives the same results.) -/
def atoi (s : List Char) : Int × Bool :=
  let sb := signAndBody s
  if sb.2.isEmpty then (0, true)
  else
    match parseUint 0 sb.2 with
    | Scan.syntaxError => (0, true)
    | Scan.rangeError => if sb.1 then (minInt64, true) else (maxInt64, true)
    | Scan.value n =>
      if sb.1 then
        if (n : Int) > 2 ^ 63 then (minInt64, true) else (-(n : Int), false)
      else
        if (n : Int) ≥ 2 ^ 63 then (maxInt64, true) else ((n : Int), false)

/-- The bytes of a string, its UTF-8 encoding. -/
def utf8Bytes (s : String) : List UInt8 := s.data.flatMap String.utf8EncodeChar

/-- `strings.HasPrefix(s, p)`. -/
def hasPrefix (s p : String) : Bool := p.data.isPrefixOf s.data

/-! ## Data model -/

/-- Configuration record (`Config`). -/
structure Config where
  SpeedLimitMbps : Int
  DailyQuotaGB : Int
  ScheduleStart : String
  ScheduleEnd : String
  URLs : List String
  deriving DecidableEq, Repr

/-- Statistics record (`Stats`). -/
structure Stats where
  Daily : List (String × Nat)
  TodayBytes : Nat
  TodayDate : String
  deriving DecidableEq, Repr

/-- The messages `addLog` is called with, with the values put into them: the
URL as `truncateURL` returns it (bytes, since the cut may fall inside a
character) and byte counts as `formatBytes` renders them. -/
inductive LogMsg where
  | initDone
  | dateRollover
  | noTargets
  | startDownload (url : List UInt8)
  | downloadError (err : String) (transferred : String)
  | downloadDone (transferred : String)
  | rest (sleepSec : Nat)
  | started
  | stopped
  | configUpdated (speed quota : Int) (schedStart schedEnd : String)
  deriving DecidableEq, Repr

/-- One log line (`LogEntry`). -/
structure LogEntry where
  Time : String
  Msg : LogMsg
  deriving DecidableEq, Repr

/-- The bounded log (`LogStore`). -/
structure LogStore where
  MaxEntries : Nat
  Entries : List LogEntry
  deriving DecidableEq, Repr

/-- A non-negative finite `float64`, as the rational `num / den`. -/
structure F64 where
  num : Nat
  den : Nat
  deriving DecidableEq, Repr

/-- The shared runtime state (`App`), without the mutex. -/
structure App where
  config : Config
  stats : Stats
  logs : LogStore
  isRunning : Bool
  status : String
  speedMbps : F64
  speedHistory : List F64
  startedAt : Nat
  bytesThisSecond : Nat
  deriving DecidableEq, Repr

/-! ## The map of daily totals -/

/-- `m[k]` with the comma-ok form: the stored value, if any. -/
def mapGet (m : List (String × Nat)) (k : String) : Option Nat :=
  (m.find? (fun kv => kv.1 == k)).map Prod.snd

/-- `m[k] = v`. -/
def mapSet (m : List (String × Nat)) (k : String) (v : Nat) : List (String × Nat) :=
  m.filter (fun kv => !(kv.1 == k)) ++ [(k, v)]

/-- The loop `for k := range m { if !keep(k) { delete(m, k) } }`. -/
def mapRetain (m : List (String × Nat)) (keep : String → Bool) : List (String × Nat) :=
  m.filter (fun kv => keep kv.1)

/-! ## Logging -/

/-- `addLog`: append, then keep the newest `MaxEntries` entries. The capacity
is a natural number: with a negative one the call of `addLog` in `main` stops
the program before any goroutine starts. -/
def addLog (app : App) (now : String) (msg : LogMsg) : App :=
  let entries := app.logs.Entries ++ [{ Time := now, Msg := msg }]
  let entries :=
    if entries.length > app.logs.MaxEntries then
      entries.drop (entries.length - app.logs.MaxEntries)
    else entries
  { app with logs := { app.logs with Entries := entries } }

/-! ## Policy evaluator -/

/-- `checkDateChange`. `today` is `time.Now().Format("2006-01-02")`, `thisYear`
is `time.Now().Format("2006")` and `logTime` the time stamp of the log line. -/
def checkDateChange (app : App) (today thisYear logTime : String) : App :=
  if app.stats.TodayDate = today then app
  else
    let daily :=
      if app.stats.TodayDate ≠ "" ∧ app.stats.TodayBytes > 0 then
        mapSet app.stats.Daily app.stats.TodayDate app.stats.TodayBytes
      else app.stats.Daily
    let app := { app with stats := { Daily := daily, TodayBytes := 0, TodayDate := today } }
    let app := addLog app logTime LogMsg.dateRollover
    { app with stats :=
        { app.stats with Daily := mapRetain app.stats.Daily (fun k => hasPrefix k thisYear) } }

/-- `parseTimeStr`. -/
def parseTimeStr (s : String) : Int :=
  match splitColon s.data with
  | [hs, ms] => toInt64 (toInt64 ((atoi hs).1 * 60) + (atoi ms).1)
  | _ => 0

/-- `isInSchedule`. `hour` and `minute` are the results of
`time.Now().Hour()` and `time.Now().Minute()`. -/
def isInSchedule (app : App) (hour minute : Int) : Bool :=
  let nowMin := toInt64 (toInt64 (hour * 60) + minute)
  let start := parseTimeStr app.config.ScheduleStart
  let endMin := parseTimeStr app.config.ScheduleEnd
  if start ≤ endMin then
    decide (nowMin ≥ start) && decide (nowMin ≤ endMin)
  else
    decide (nowMin ≥ start) || decide (nowMin ≤ endMin)

/-- `isQuotaReached`. -/
def isQuotaReached (app : App) : Bool :=
  decide (app.stats.TodayBytes ≥ toUint64 app.config.DailyQuotaGB * 1000000000 % 2 ^ 64)

/-! ## Floating point -/

/-- Count the halvings of `n` that leave at least 1, at most `fuel` of them. -/
def log2Aux : Nat → Nat → Nat
  | 0, _ => 0
  | fuel + 1, n => if n ≥ 2 then log2Aux fuel (n / 2) + 1 else 0

/-- The position of the leading binary digit of `n`: the `k` with
`2 ^ k ≤ n < 2 ^ (k + 1)`, and `0` for `n = 0`. -/
def floorLog2 (n : Nat) : Nat := log2Aux n n

/-- The integer `k` with `2 ^ k ≤ num / den < 2 ^ (k + 1)`, for positive
`num` and `den`. -/
def floorLog2Ratio (num den : Nat) : Int :=
  let k : Int := (floorLog2 num : Int) - (floorLog2 den : Int)
  if den * 2 ^ k.toNat ≤ num * 2 ^ (-k).toNat then k else k - 1

/-- The integer nearest to `a / b`, ties to the even one. -/
def roundHalfEven (a b : Nat) : Nat :=
  let q := a / b
  let r := a % b
  if 2 * r < b then q
  else if 2 * r > b then q + 1
  else if q % 2 = 0 then q else q + 1

/-- The double nearest to `num / den` (ties to even): a 53-bit significand
scaled by a power of two. Exponent limits play no part for the magnitudes the
program computes (byte counts, rates and nanoseconds below `2 ^ 100`). -/
def f64Round (num den : Nat) : F64 :=
  if num = 0 ∨ den = 0 then ⟨0, 1⟩
  else
    let e := floorLog2Ratio num den - 52
    if 0 ≤ e then ⟨roundHalfEven num (den * 2 ^ e.toNat) * 2 ^ e.toNat, 1⟩
    else ⟨roundHalfEven (num * 2 ^ (-e).toNat) den, 2 ^ (-e).toNat⟩

namespace F64

/-- The value `0.0`. -/
def zero : F64 := ⟨0, 1⟩

/-- Conversion `float64(n)` of a non-negative integer. -/
def ofNat (n : Nat) : F64 := f64Round n 1

/-- Quotient `x / y` of doubles, `y` not zero. -/
def div (x y : F64) : F64 := f64Round (x.num * y.den) (x.den * y.num)

/-- Product `x * y` of doubles. -/
def mul (x y : F64) : F64 := f64Round (x.num * y.num) (x.den * y.den)

/-- Integer part of a double. -/
def trunc (x : F64) : Nat := x.num / x.den

end F64

/-! ## Rate-limited fetcher -/

/-- The expression
`time.Duration(float64(windowBytes) / float64(bytesPerSec) * float64(time.Second))`
in nanoseconds. A quotient that is infinite, not a number, or too large for
`int64` converts to the smallest `int64`, as on amd64 (Go leaves the
conversion to the platform). -/
def expectedDuration (windowBytes bytesPerSec : Int) : Int :=
  if bytesPerSec = 0 then minInt64
  else
    let q := F64.div (F64.ofNat windowBytes.natAbs) (F64.ofNat bytesPerSec.natAbs)
    let d : Int := F64.trunc (F64.mul q (F64.ofNat 1000000000))
    let signed := if decide (windowBytes < 0) != decide (bytesPerSec < 0) then -d else d
    if minInt64 ≤ signed ∧ signed ≤ maxInt64 then signed else minInt64

/-- The error value returned by `resp.Body.Read`. -/
inductive ReadErr where
  | nil
  | eof
  | other (msg : String)
  deriving DecidableEq, Repr

/-- One turn of the read loop as the environment decides it: what the other
goroutines did to the shared state since the previous turn (`before`, seen by
the abort check) and while `Read` was blocked (`during`), each a critical
section under the mutex; how long `Read` blocked (nanoseconds); the number of
bytes it returned and its error. -/
structure ReadStep where
  before : App → App
  during : App → App
  latency : Nat
  n : Nat
  err : ReadErr

/-- A chunk that `Read` delivered: when the call returned (nanoseconds on the
monotonic clock), its size, and the `windowStart` of the accounting window it
was counted in. -/
structure ReadEvent where
  time : Nat
  n : Nat
  windowStart : Nat
  deriving DecidableEq, Repr

/-- The variables of the read loop of `doDownload`, the clock, and the chunks
delivered so far (newest last). -/
structure Fetch where
  app : App
  total : Nat
  windowBytes : Int
  windowStart : Nat
  now : Nat
  reads : List ReadEvent
  deriving DecidableEq, Repr

/-- How the read loop stopped; `pending` when the given turns ran out with the
loop still going. -/
inductive Ending where
  | aborted
  | eof
  | failed (msg : String)
  | pending
  deriving DecidableEq, Repr

/-- The body of `if n > 0 { ... }`: count the chunk, publish it to the shared
counters, sleep until the window has lasted as long as its bytes should take,
and start a new window once the current one is a second old. The clock moves
only while `Read` blocks and while the loop sleeps. -/
def account (bytesPerSec : Int) (s : Fetch) (n : Nat) : Fetch :=
  let windowBytes := toInt64 (s.windowBytes + n)
  let elapsed : Int := (s.now : Int) - s.windowStart
  let expected := expectedDuration windowBytes bytesPerSec
  let now := if expected > elapsed then s.now + (expected - elapsed).toNat else s.now
  let reset := decide ((now : Int) - s.windowStart ≥ 1000000000)
  { app := { s.app with
      stats := { s.app.stats with TodayBytes := (s.app.stats.TodayBytes + n) % 2 ^ 64 }
      bytesThisSecond := (s.app.bytesThisSecond + n) % 2 ^ 64 }
    total := (s.total + n) % 2 ^ 64
    windowBytes := if reset then 0 else windowBytes
    windowStart := if reset then now else s.windowStart
    now := now
    reads := s.reads ++ [{ time := s.now, n := n, windowStart := s.windowStart }] }

/-- The call `resp.Body.Read(buf)` of one turn and the accounting of what it
returned. -/
def readChunk (bytesPerSec : Int) (s : Fetch) (r : ReadStep) : Fetch :=
  let s := { s with app := r.during s.app, now := s.now + r.latency }
  if r.n > 0 then account bytesPerSec s r.n else s

/-- The `for` loop of `doDownload`, one `ReadStep` per turn. -/
def readLoop (bytesPerSec : Int) : Fetch → List ReadStep → Fetch × Ending
  | s, [] => (s, Ending.pending)
  | s, r :: rs =>
    let s := { s with app := r.before s.app }
    if !s.app.isRunning || isQuotaReached s.app then (s, Ending.aborted)
    else
      let s := readChunk bytesPerSec s r
      match r.err with
      | ReadErr.nil => readLoop bytesPerSec s rs
      | ReadErr.eof => (s, Ending.eof)
      | ReadErr.other msg => (s, Ending.failed msg)

/-- What the HTTP client did with the request: it failed before a response
arrived, or a response with a status code and a body arrived. -/
inductive Response where
  | failed (err : String)
  | arrived (statusCode : Int) (body : List ReadStep)

/-- The rate `bytesPerSec := int64(speedLimitMbps) * 1000000 / 8`. -/
def bytesPerSecOf (speedLimitMbps : Int) : Int :=
  Int.tdiv (toInt64 (toInt64 speedLimitMbps * 1000000)) 8

/-- The loop variables at `windowStart := time.Now()`. -/
def Fetch.init (app : App) (start : Nat) : Fetch :=
  { app := app, total := 0, windowBytes := 0, windowStart := start, now := start, reads := [] }

/-- The error that `doDownload` returns for an ending of its loop. -/
def Ending.error : Ending → Option String
  | Ending.failed msg => some msg
  | _ => none

/-- What a call of `doDownload` leaves behind: the final loop variables (with
the shared state inside), how the loop stopped, and the returned pair
`(total, err)`. -/
structure Download where
  state : Fetch
  ending : Ending
  total : Nat
  err : Option String
  deriving DecidableEq, Repr

/-- `doDownload`. `start` is the clock when the body is first read. -/
def doDownload (app : App) (speedLimitMbps : Int) (resp : Response) (start : Nat) : Download :=
  match resp with
  | Response.failed err =>
    { state := Fetch.init app start, ending := Ending.failed err, total := 0, err := some err }
  | Response.arrived statusCode body =>
    if statusCode ≠ 200 then
      { state := Fetch.init app start,
        ending := Ending.failed ("HTTP " ++ toString statusCode), total := 0,
        err := some ("HTTP " ++ toString statusCode) }
    else
      let out := readLoop (bytesPerSecOf speedLimitMbps) (Fetch.init app start) body
      { state := out.1, ending := out.2, total := out.1.total, err := out.2.error }

/-! ## Speed tracker -/

/-- One tick of `speedTracker`; the string arguments are those of
`checkDateChange`. -/
def speedTrackerTick (app : App) (today thisYear logTime : String) : App :=
  let app := checkDateChange app today thisYear logTime
  let bytes := app.bytesThisSecond
  let app := { app with bytesThisSecond := 0 }
  let mbps := F64.div (F64.mul (F64.ofNat bytes) (F64.ofNat 8)) (F64.ofNat 1000000)
  let mbps := if !app.isRunning then F64.zero else mbps
  let app := { app with speedMbps := mbps }
  let history := app.speedHistory ++ [mbps]
  let history :=
    if history.length > 30 then history.drop (history.length - 30) else history
  { app with speedHistory := history }

/-- The `App` that `main` builds and fills from the three loaded records,
before it starts the goroutines. -/
def mainApp (config : Config) (stats : Stats) (logs : LogStore) (logTime : String) : App :=
  addLog
    { config := config, stats := stats, logs := logs, isRunning := false,
      status := "stopped", speedMbps := F64.zero,
      speedHistory := List.replicate 30 F64.zero, startedAt := 0, bytesThisSecond := 0 }
    logTime LogMsg.initDone

/-! ## Worker state machine -/

/-- `truncateURL`: a URL of more than 60 bytes is cut to its first 57 bytes,
followed by three dots. -/
def truncateURL (u : String) : List UInt8 :=
  if (utf8Bytes u).length > 60 then (utf8Bytes u).take 57 ++ utf8Bytes "..." else utf8Bytes u

/-- The verb `%.2f` of `fmt.Sprintf`: the value rounded to two decimals, a tie
to the even neighbour. -/
def formatFixed2 (x : F64) : String :=
  let h := roundHalfEven (x.num * 100) x.den
  toString (h / 100) ++ "." ++ (if h % 100 < 10 then "0" else "") ++ toString (h % 100)

/-- `formatBytes`. -/
def formatBytes (b : Nat) : String :=
  if b ≥ 1000000000000 then
    formatFixed2 (F64.div (F64.ofNat b) (F64.ofNat 1000000000000)) ++ " TB"
  else if b ≥ 1000000000 then
    formatFixed2 (F64.div (F64.ofNat b) (F64.ofNat 1000000000)) ++ " GB"
  else if b ≥ 1000000 then
    formatFixed2 (F64.div (F64.ofNat b) (F64.ofNat 1000000)) ++ " MB"
  else toString b ++ " B"

/-- What the environment supplies to one turn of the `downloadWorker` loop:
the clock readings of the schedule check, the time stamp of log lines, the
value of `rand.Intn(len(urls))`, the HTTP response with its body, the clock
when the body is first read, and the value of `rand.Intn(600)`. -/
structure WorkerEnv where
  hour : Int
  minute : Int
  logTime : String
  pick : Nat
  resp : Response
  start : Nat
  jitter : Nat

/-- The result of one turn of the `downloadWorker` loop: the shared state, the
outcome of `doDownload` if it was called, and the seconds of sleep asked for
before the next turn. -/
structure WorkerTurn where
  app : App
  fetch : Option Download
  pause : Nat

/-- One turn of the `for` loop of `downloadWorker`, with no other goroutine
running between its critical sections (those of the fetch are in `env.resp`). -/
def downloadWorkerTurn (app : App) (env : WorkerEnv) : WorkerTurn :=
  if !app.isRunning then { app := app, fetch := none, pause := 1 }
  else if !isInSchedule app env.hour env.minute then
    { app := { app with status := "out_of_schedule" }, fetch := none, pause := 30 }
  else if isQuotaReached app then
    { app := { app with status := "quota_reached" }, fetch := none, pause := 60 }
  else
    let urls := app.config.URLs
    let speedLimit := app.config.SpeedLimitMbps
    if urls.length = 0 then
      let app := addLog app env.logTime LogMsg.noTargets
      { app := { app with isRunning := false, status := "stopped" }, fetch := none, pause := 0 }
    else
      let url := urls.getD env.pick ""
      let app := addLog { app with status := "running" } env.logTime
        (LogMsg.startDownload (truncateURL url))
      let out := doDownload app speedLimit env.resp env.start
      let app := out.state.app
      let app :=
        match out.err with
        | some err => addLog app env.logTime (LogMsg.downloadError err (formatBytes out.total))
        | none => addLog app env.logTime (LogMsg.downloadDone (formatBytes out.total))
      if !app.isRunning then { app := app, fetch := some out, pause := 0 }
      else
        let sleepSec := env.jitter + 600
        let app := addLog { app with status := "sleeping" } env.logTime (LogMsg.rest sleepSec)
        { app := app, fetch := some out, pause := sleepSec }

/-! ## Control surface -/

/-- What `handleConfig` answers: the status code, and for a success either the
acknowledgement of an update or the stored configuration. -/
inductive Reply where
  | error (code : Nat)
  | updated
  | config (cfg : Config)
  deriving DecidableEq, Repr

/-- `handleConfig`. `decoded` is the outcome of
`json.NewDecoder(r.Body).Decode(&cfg)`: `none` when it reports an error,
otherwise the decoded record. -/
def handleConfig (app : App) (method : String) (decoded : Option Config) (logTime : String) :
    App × Reply :=
  if method = "POST" then
    match decoded with
    | none => (app, Reply.error 400)
    | some cfg =>
      (addLog { app with config := cfg } logTime
          (LogMsg.configUpdated cfg.SpeedLimitMbps cfg.DailyQuotaGB cfg.ScheduleStart
            cfg.ScheduleEnd),
        Reply.updated)
  else (app, Reply.config app.config)

/-! # Vocabulary of the statements

Sample states, the notions the claims are worded in, and the observations made
on a run of the read loop. -/

/-! ## Sample states -/

/-- The configuration `loadConfig` falls back to, with the given quota,
schedule and target list. -/
def sampleConfig (quota : Int) (schedStart schedEnd : String) (urls : List String) : Config :=
  { SpeedLimitMbps := 5, DailyQuotaGB := quota, ScheduleStart := schedStart,
    ScheduleEnd := schedEnd, URLs := urls }

/-- A state of the running program: the given configuration, counter of the
day and archive, an empty log of capacity 500, thirty zero samples. -/
def sampleApp (config : Config) (todayBytes : Nat) (todayDate : String)
    (daily : List (String × Nat)) (running : Bool) : App :=
  { config := config,
    stats := { Daily := daily, TodayBytes := todayBytes, TodayDate := todayDate },
    logs := { MaxEntries := 500, Entries := [] },
    isRunning := running, status := if running then "running" else "stopped",
    speedMbps := F64.zero, speedHistory := List.replicate 30 F64.zero,
    startedAt := 0, bytesThisSecond := 0 }

/-! ## Well-formed and malformed times of day -/

/-- The character of a decimal digit. -/
def digitChar (d : Nat) : Char := Char.ofNat (48 + d)

/-- The well-formed time of day "HH:MM" for hour `h` and minute `m`. -/
def hhmm (h m : Nat) : String :=
  String.mk [digitChar (h / 10), digitChar (h % 10), ':', digitChar (m / 10), digitChar (m % 10)]

/-- Whether a part is written as a decimal integer: an optional sign, then
one or more decimal digits. -/
def isDecimalInt (s : List Char) : Bool :=
  !(signAndBody s).2.isEmpty && (signAndBody s).2.all (fun c => (digitVal c).isSome)

/-! ## Valid configurations -/

/-- Validity of a configuration in the words of the specification: a positive
speed limit and a non-negative daily quota. -/
def specValidConfig (cfg : Config) : Bool :=
  decide (0 < cfg.SpeedLimitMbps) && decide (0 ≤ cfg.DailyQuotaGB)

/-- The record that the payload `{}` decodes to: every field at its zero value. -/
def zeroConfig : Config :=
  { SpeedLimitMbps := 0, DailyQuotaGB := 0, ScheduleStart := "", ScheduleEnd := "", URLs := [] }

/-! ## Sample environment of the worker -/

/-- An environment for one turn of the worker: the clock reads `hour:minute`,
and the HTTP client fails should a fetch be tried. -/
def sampleEnv (hour minute : Int) : WorkerEnv :=
  { hour := hour, minute := minute, logTime := "12:00:00", pick := 0,
    resp := Response.failed "connection refused", start := 0, jitter := 0 }

/-! ## Runs of the speed tracker -/

/-- One tick of the tracker as the environment decides it: what the other
goroutines did to the shared state since the previous tick, and the clock
readings of the tick. -/
structure Tick where
  others : App → App
  today : String
  thisYear : String
  logTime : String

/-- The sample a tick computes from the state it finds: the bytes counted
since the previous tick, times 8, over 1e6, in `float64`; zero when the
operator has the worker off. -/
def trackerSample (app : App) : F64 :=
  if app.isRunning then
    F64.div (F64.mul (F64.ofNat app.bytesThisSecond) (F64.ofNat 8)) (F64.ofNat 1000000)
  else F64.zero

/-- The shared state after the given ticks of `speedTracker`, the other
goroutines running in between. -/
def runTracker (app : App) : List Tick → App
  | [] => app
  | t :: ts => runTracker (speedTrackerTick (t.others app) t.today t.thisYear t.logTime) ts

/-! ## Observations on the byte counters -/

/-- The sum of the sizes of the chunks delivered. -/
def chunkSum (reads : List ReadEvent) : Nat := (reads.map ReadEvent.n).sum

/-- A critical section of another goroutine that writes neither byte counter. -/
def KeepsCounters (f : App → App) : Prop :=
  ∀ a : App, (f a).stats.TodayBytes = a.stats.TodayBytes
    ∧ (f a).bytesThisSecond = a.bytesThisSecond

/-- The loop variables hold values of `uint64`. -/
def CountersInRange (s : Fetch) : Prop :=
  s.total < 2 ^ 64 ∧ s.app.stats.TodayBytes < 2 ^ 64 ∧ s.app.bytesThisSecond < 2 ^ 64

/-- A turn of the read loop in which no other goroutine touches the shared
state. -/
def quietStep (latency n : Nat) (err : ReadErr) : ReadStep :=
  { before := fun a => a, during := fun a => a, latency := latency, n := n, err := err }

/-! ## The reads of a transfer, as the fetcher is described

The reference that `doDownload` is compared with. It is written after the
description of the fetcher (abort check before each read, every chunk
published, end-of-stream or an error ends the transfer), not after the loop:
it has no clock, no accounting window and no byte total. -/

/-- Publishing a chunk of `n` bytes to the two shared counters, both
`uint64`. -/
def publish (app : App) (n : Nat) : App :=
  { app with
    stats := { app.stats with TodayBytes := (app.stats.TodayBytes + n) % 2 ^ 64 }
    bytesThisSecond := (app.bytesThisSecond + n) % 2 ^ 64 }

/-- The number of reads a transfer performs on the given turns: before each
read the abort check is consulted on the shared state, every chunk read is
published to the shared counters, and a read that reports end-of-stream or
an error is the last one. -/
def readsDone (app : App) : List ReadStep → Nat
  | [] => 0
  | r :: rs =>
    if !(r.before app).isRunning || isQuotaReached (r.before app) then 0
    else
      match r.err with
      | ReadErr.nil => readsDone (publish (r.during (r.before app)) r.n) rs + 1
      | _ => 1

/-- The sizes of the chunks that the reads performed returned, oldest first. -/
def chunksRead (app : App) (body : List ReadStep) : List Nat :=
  (body.take (readsDone app body)).map ReadStep.n

/-- The error value of the last read performed; `nil` if no read was
performed. -/
def lastErr (app : App) (body : List ReadStep) : ReadErr :=
  (((body.take (readsDone app body)).getLast?).map ReadStep.err).getD ReadErr.nil

/-! ## The expected duration at a positive rate -/

/-- The nanoseconds that the window's bytes should take, for a positive rate
and a non-negative byte count: the value of `expectedDuration` before the
sign and the range check. -/
def expectedNanos (windowBytes bytesPerSec : Nat) : Nat :=
  F64.trunc
    (F64.mul (F64.div (F64.ofNat windowBytes) (F64.ofNat bytesPerSec)) (F64.ofNat 1000000000))

/-! ## Observations on the pacing -/

/-- The bytes counted in the accounting window that started at `w`. -/
def windowTotal (reads : List ReadEvent) (w : Nat) : Nat :=
  chunkSum (reads.filter (fun e => e.windowStart == w))

/-- The bytes of the chunks delivered during the second that starts at `a`
(nanoseconds). -/
def bytesWithin (reads : List ReadEvent) (a : Nat) : Nat :=
  chunkSum (reads.filter (fun e => decide (a ≤ e.time) && decide (e.time < a + 1000000000)))

/-- What the read loop maintains for a rate of `b` bytes per second: the
current window holds fewer than `b` bytes when a read starts, every window
holds fewer than `b + 32768` bytes, and a later window starts at least a
second after an earlier one and after every chunk of the earlier one. -/
structure Paced (b : Nat) (s : Fetch) : Prop where
  clock : s.windowStart ≤ s.now
  window : s.windowBytes = (windowTotal s.reads s.windowStart : Int)
  below : windowTotal s.reads s.windowStart < b
  past : ∀ e ∈ s.reads, e.windowStart ≤ e.time ∧ e.time ≤ s.now
    ∧ (e.windowStart = s.windowStart
      ∨ (e.windowStart + 1000000000 ≤ s.windowStart ∧ e.time ≤ s.windowStart))
  apart : ∀ e1 ∈ s.reads, ∀ e2 ∈ s.reads, e1.windowStart < e2.windowStart →
    e1.windowStart + 1000000000 ≤ e2.windowStart ∧ e1.time ≤ e2.windowStart
  total : ∀ w : Nat, windowTotal s.reads w < b + 32768

/-- What the read loop maintains in addition when no read blocks, for a rate
of `b` bytes per second and the second that starts at `a`: the age of the
current window is the time its bytes should take, up to the nanosecond that
the expected duration is cut to; no chunk is counted before `a`; while the
second lasts, the bytes counted in it split into those of earlier windows
and those of the current one, the former no more than the rate allows for
the time from `a` to the start of the current window, the latter following
everything the rate allowed for the time from that start to `a`; and the
bytes counted exceed `b + 32768` by no more than the bytes of
`1 + 3 / 2 ^ 20` nanoseconds. -/
structure Steady (b a : Nat) (s : Fetch) : Prop where
  lower : (s.windowBytes : ℚ) * (1000000000 / b)
    ≤ (s.now : ℚ) - s.windowStart + (1 + 1 / 2 ^ 20)
  upper : (s.now : ℚ) - s.windowStart
    ≤ (s.windowBytes : ℚ) * (1000000000 / b) + 1 / 2 ^ 20
  early : s.now < a → bytesWithin s.reads a = 0
  parts : ∃ sp sc : Nat, bytesWithin s.reads a = sp + sc ∧ (sc : Int) ≤ s.windowBytes
    ∧ (0 < sp → a ≤ s.windowStart)
    ∧ (s.now < a + 1000000000 → a ≤ s.now →
        (a : ℚ) - s.windowStart
          ≤ ((s.windowBytes : ℚ) - sc) * (1000000000 / b) + 1 / 2 ^ 20)
    ∧ (s.now < a + 1000000000 → 0 < sp →
        (sp : ℚ) * (1000000000 / b) ≤ (s.windowStart : ℚ) - a + (1 + 2 / 2 ^ 20))
  bound : (bytesWithin s.reads a : ℚ) * (1000000000 / b)
    ≤ 1000000000 + 32768 * (1000000000 / b) + (1 + 3 / 2 ^ 20)

/-- A body whose first chunk arrives after a stall of 0.9 s, followed by two
chunks a microsecond apart, a chunk after 0.2 s, a chunk after a further
0.79 s and two more chunks a microsecond apart; every chunk has 32768 bytes. -/
def burstBody : List ReadStep :=
  [quietStep 900000000 32768 ReadErr.nil, quietStep 1000 32768 ReadErr.nil,
    quietStep 1000 32768 ReadErr.nil, quietStep 200000000 32768 ReadErr.nil,
    quietStep 790000000 32768 ReadErr.nil, quietStep 1000 32768 ReadErr.nil,
    quietStep 1000 32768 ReadErr.eof]

/-! # Theorems -/

/-! ## Quota -/

theorem toUint64_of_nonneg (q : Int) (h0 : 0 ≤ q) (h1 : q < 2 ^ 64) :
    toUint64 q = q.toNat := by
  unfold toUint64
  rw [Int.emod_eq_of_lt h0 h1]

/-- Claim C6 as stated fails: with a quota of 18446744074 GB the product
`uint64(quota) * 1e9` wraps to 290448384, so `isQuotaReached` is true at
`todayBytes = 300000000` although `300000000 < 18446744074 * 10 ^ 9`. -/
theorem isQuotaReached_wraps :
    isQuotaReached
        (sampleApp (sampleConfig 18446744074 "00:00" "23:59" []) 300000000 "2025-01-01" []
          true) = true
      ∧ (300000000 : Int) < 18446744074 * 1000000000 := by
  decide

/-- Claim C6, amended: when `0 ≤ dailyQuotaGB` and `dailyQuotaGB * 10 ^ 9`
fits `uint64`, `isQuotaReached` is true exactly when
`todayBytes ≥ dailyQuotaGB * 10 ^ 9`; for such a quota of at least 1 it is
false at `dailyQuotaGB * 10 ^ 9 - 1` and true at `dailyQuotaGB * 10 ^ 9`. -/
theorem isQuotaReached_iff (app : App) (h0 : 0 ≤ app.config.DailyQuotaGB)
    (h1 : app.config.DailyQuotaGB * 1000000000 < 2 ^ 64) :
    (isQuotaReached app = true ↔
        (app.stats.TodayBytes : Int) ≥ app.config.DailyQuotaGB * 1000000000)
      ∧ (1 ≤ app.config.DailyQuotaGB →
          isQuotaReached { app with stats := { app.stats with
              TodayBytes := (app.config.DailyQuotaGB * 1000000000 - 1).toNat } } = false
          ∧ isQuotaReached { app with stats := { app.stats with
              TodayBytes := (app.config.DailyQuotaGB * 1000000000).toNat } } = true) := by
  have hq : toUint64 app.config.DailyQuotaGB = app.config.DailyQuotaGB.toNat :=
    toUint64_of_nonneg _ h0 (by omega)
  have hmod : app.config.DailyQuotaGB.toNat * 1000000000 % 2 ^ 64
      = app.config.DailyQuotaGB.toNat * 1000000000 := by
    apply Nat.mod_eq_of_lt
    omega
  refine ⟨?_, fun h => ⟨?_, ?_⟩⟩
  · simp only [isQuotaReached, hq, hmod, decide_eq_true_eq]
    omega
  · simp only [isQuotaReached, hq, hmod, decide_eq_false_iff_not]
    omega
  · simp only [isQuotaReached, hq, hmod, decide_eq_true_eq]
    omega

/-- The amended claim C6 at the default quota of 200 GB: not reached one
byte below the quota, reached at the quota. -/
theorem isQuotaReached_iff_witness :
    isQuotaReached
        (sampleApp (sampleConfig 200 "00:00" "23:59" []) 199999999999 "2025-01-01" []
          true) = false
      ∧ isQuotaReached
        (sampleApp (sampleConfig 200 "00:00" "23:59" []) 200000000000 "2025-01-01" []
          true) = true :=
  (isQuotaReached_iff
    (sampleApp (sampleConfig 200 "00:00" "23:59" []) 0 "2025-01-01" [] true)
    (by decide) (by decide)).2 (by decide)

/-! ## Time-of-day strings -/

theorem digitChar_facts (d : Fin 10) :
    digitVal (digitChar d) = some d.val ∧ digitChar d ≠ ':' ∧ digitChar d ≠ '-'
      ∧ digitChar d ≠ '+' := by
  revert d
  decide

theorem atoi_two_digits (a b : Fin 10) :
    atoi [digitChar a, digitChar b] = (((a.val * 10 + b.val : Nat) : Int), false) := by
  revert a b
  decide

theorem splitColon_hhmm (a b c d : Char) (ha : a ≠ ':') (hb : b ≠ ':') (hc : c ≠ ':')
    (hd : d ≠ ':') : splitColon [a, b, ':', c, d] = [[a, b], [c, d]] := by
  simp [splitColon, ha, hb, hc, hd]

theorem toInt64_of_range (z : Int) (h0 : -(2 ^ 63) ≤ z) (h1 : z < 2 ^ 63) : toInt64 z = z := by
  unfold toInt64
  omega

theorem parseTimeStr_hhmm (h m : Nat) (hh : h < 100) (hm : m < 100) :
    parseTimeStr (hhmm h m) = (h : Int) * 60 + m := by
  have h1 : h / 10 < 10 := by omega
  have h2 : h % 10 < 10 := by omega
  have h3 : m / 10 < 10 := by omega
  have h4 : m % 10 < 10 := by omega
  have e1 := atoi_two_digits ⟨h / 10, h1⟩ ⟨h % 10, h2⟩
  have e2 := atoi_two_digits ⟨m / 10, h3⟩ ⟨m % 10, h4⟩
  have s1 := splitColon_hhmm (digitChar (h / 10)) (digitChar (h % 10)) (digitChar (m / 10))
    (digitChar (m % 10)) (digitChar_facts ⟨h / 10, h1⟩).2.1 (digitChar_facts ⟨h % 10, h2⟩).2.1
    (digitChar_facts ⟨m / 10, h3⟩).2.1 (digitChar_facts ⟨m % 10, h4⟩).2.1
  simp only at e1 e2
  simp only [parseTimeStr, hhmm, s1, e1, e2]
  have eh : ((h / 10 * 10 + h % 10 : Nat) : Int) = h := by omega
  have em : ((m / 10 * 10 + m % 10 : Nat) : Int) = m := by omega
  rw [eh, em, toInt64_of_range ((h : Int) * 60) (by omega) (by omega)]
  exact toInt64_of_range _ (by omega) (by omega)

theorem nowMin_of_clock (hour minute : Nat) (hhour : hour < 24) (hmin : minute < 60) :
    toInt64 (toInt64 ((hour : Int) * 60) + minute) = (hour : Int) * 60 + minute := by
  rw [toInt64_of_range ((hour : Int) * 60) (by omega) (by omega)]
  exact toInt64_of_range _ (by omega) (by omega)

/-- Claim C4: for a clock reading `hour:minute` and well-formed bounds
`sh:sm` and `eh:em`, `isInSchedule` is true exactly when the minute of the
day lies in `[start, end]` if `start ≤ end`, and exactly when it is at least
`start` or at most `end` if `start > end`; it is true at both boundary
minutes; with start 23:00 and end 01:00 it is true at 23:30 and 00:30 and
false at 12:00. -/
theorem isInSchedule_window (app : App) (hour minute sh sm eh em : Nat)
    (hhour : hour < 24) (hmin : minute < 60) (hsh : sh < 24) (hsm : sm < 60)
    (heh : eh < 24) (hem : em < 60)
    (hs : app.config.ScheduleStart = hhmm sh sm) (he : app.config.ScheduleEnd = hhmm eh em) :
    (isInSchedule app hour minute = true ↔
        if sh * 60 + sm ≤ eh * 60 + em then
          sh * 60 + sm ≤ hour * 60 + minute ∧ hour * 60 + minute ≤ eh * 60 + em
        else sh * 60 + sm ≤ hour * 60 + minute ∨ hour * 60 + minute ≤ eh * 60 + em)
      ∧ isInSchedule app sh sm = true
      ∧ isInSchedule app eh em = true
      ∧ isInSchedule (sampleApp (sampleConfig 200 "23:00" "01:00" []) 0 "2025-01-01" [] true)
          23 30 = true
      ∧ isInSchedule (sampleApp (sampleConfig 200 "23:00" "01:00" []) 0 "2025-01-01" [] true)
          0 30 = true
      ∧ isInSchedule (sampleApp (sampleConfig 200 "23:00" "01:00" []) 0 "2025-01-01" [] true)
          12 0 = false := by
  have ps := parseTimeStr_hhmm sh sm (by omega) (by omega)
  have pe := parseTimeStr_hhmm eh em (by omega) (by omega)
  have key : ∀ x y : Nat, x < 24 → y < 60 →
      (isInSchedule app x y = true ↔
        if sh * 60 + sm ≤ eh * 60 + em then
          sh * 60 + sm ≤ x * 60 + y ∧ x * 60 + y ≤ eh * 60 + em
        else sh * 60 + sm ≤ x * 60 + y ∨ x * 60 + y ≤ eh * 60 + em) := by
    intro x y hx hy
    simp only [isInSchedule, hs, he, ps, pe, nowMin_of_clock x y hx hy]
    by_cases hle : sh * 60 + sm ≤ eh * 60 + em
    · have hle2 : (sh : Int) * 60 + sm ≤ (eh : Int) * 60 + em := by omega
      simp only [hle, hle2, if_true, Bool.and_eq_true, decide_eq_true_eq]
      omega
    · have hle2 : ¬ ((sh : Int) * 60 + sm ≤ (eh : Int) * 60 + em) := by omega
      simp only [hle, hle2, if_false, Bool.or_eq_true, decide_eq_true_eq]
      omega
  refine ⟨key hour minute hhour hmin, ?_, ?_, by decide, by decide, by decide⟩
  · rw [key sh sm hsh hsm]
    split <;> omega
  · rw [key eh em heh hem]
    split <;> omega

/-- Claim C4 at the default schedule 00:00 to 23:59 and the clock 12:34. -/
theorem isInSchedule_window_witness :
    isInSchedule (sampleApp (sampleConfig 200 "00:00" "23:59" []) 0 "2025-01-01" [] true)
        (12 : Nat) (34 : Nat) = true :=
  (isInSchedule_window
    (sampleApp (sampleConfig 200 "00:00" "23:59" []) 0 "2025-01-01" [] true)
    12 34 0 0 23 59 (by decide) (by decide) (by decide) (by decide) (by decide) (by decide)
    (by decide) (by decide)).1.mpr (by decide)

/-- Claim C5 as stated fails: with `scheduleStart = scheduleEnd = "12:00"`
the schedule check is false at 13:00. -/
theorem isInSchedule_zero_width_excludes :
    isInSchedule (sampleApp (sampleConfig 200 "12:00" "12:00" []) 0 "2025-01-01" [] true)
      13 0 = false := by
  decide

/-- Claim C5, amended: when `scheduleStart` equals `scheduleEnd`,
`isInSchedule` is true at a clock reading exactly when its minute of the day
equals the value the common bound parses to. That is exactly one minute of
the day when the value lies in 0..1439, as it does for every well-formed
"HH:MM", where the minute is HH:MM itself; it is no minute at all when the
value lies outside, as for "25:00", which parses to 1500. -/
theorem isInSchedule_zero_width (app : App) (hour minute : Nat)
    (hhour : hour < 24) (hmin : minute < 60)
    (hse : app.config.ScheduleStart = app.config.ScheduleEnd) :
    (isInSchedule app hour minute = true ↔
        (hour : Int) * 60 + minute = parseTimeStr app.config.ScheduleStart)
      ∧ (0 ≤ parseTimeStr app.config.ScheduleStart →
          parseTimeStr app.config.ScheduleStart ≤ 1439 →
          (isInSchedule app hour minute = true ↔
            (hour : Int) = parseTimeStr app.config.ScheduleStart / 60
              ∧ (minute : Int) = parseTimeStr app.config.ScheduleStart % 60))
      ∧ (parseTimeStr app.config.ScheduleStart < 0
            ∨ 1439 < parseTimeStr app.config.ScheduleStart →
          isInSchedule app hour minute = false)
      ∧ (∀ sh sm : Nat, sh < 24 → sm < 60 → app.config.ScheduleStart = hhmm sh sm →
          (isInSchedule app hour minute = true ↔ hour = sh ∧ minute = sm))
      ∧ parseTimeStr "25:00" = 1500 := by
  have key : isInSchedule app hour minute = true ↔
      (hour : Int) * 60 + minute = parseTimeStr app.config.ScheduleStart := by
    simp only [isInSchedule, ← hse, nowMin_of_clock hour minute hhour hmin, le_refl, if_true,
      Bool.and_eq_true, decide_eq_true_eq]
    omega
  refine ⟨key, fun h0 h1 => ?_, fun hout => ?_, fun sh sm hsh hsm hs => ?_, by decide⟩
  · rw [key]
    omega
  · cases hb : isInSchedule app hour minute with
    | false => rfl
    | true =>
      have := key.mp hb
      omega
  · rw [key, hs, parseTimeStr_hhmm sh sm (by omega) (by omega)]
    omega

/-- The amended claim C5 at `scheduleStart = scheduleEnd = "12:00"`: the
schedule check holds at 12:00. -/
theorem isInSchedule_zero_width_witness :
    isInSchedule (sampleApp (sampleConfig 200 "12:00" "12:00" []) 0 "2025-01-01" [] true)
        (12 : Nat) (0 : Nat) = true :=
  (isInSchedule_zero_width
    (sampleApp (sampleConfig 200 "12:00" "12:00" []) 0 "2025-01-01" [] true)
    12 0 (by decide) (by decide) (by decide)).1.mpr (by decide)

theorem digitVal_le (c : Char) (d : Nat) (h : digitVal c = some d) : d ≤ 9 := by
  unfold digitVal at h
  split at h
  · rename_i hc
    have h1 : c.toNat ≤ '9'.toNat := hc.2
    have h2 : '9'.toNat = 57 := by decide
    have h3 : '0'.toNat = 48 := by decide
    simp only [Option.some.injEq] at h
    omega
  · cases h

theorem parseUint_not_value (body : List Char) :
    ∀ n : Nat, body.all (fun c => (digitVal c).isSome) = false →
      parseUint n body = Scan.syntaxError ∨ parseUint n body = Scan.rangeError := by
  induction body with
  | nil => intro n h; simp at h
  | cons c cs ih =>
    intro n h
    unfold parseUint
    cases hc : digitVal c with
    | none => exact Or.inl rfl
    | some d =>
      simp only [List.all_cons, hc, Option.isSome_some, Bool.true_and] at h
      dsimp only
      split
      · exact Or.inr rfl
      · split
        · exact Or.inr rfl
        · exact ih _ h

theorem parseUint_syntax (body : List Char) :
    ∀ n : Nat, (n + 1) * 10 ^ body.length ≤ 10 ^ 19 →
      body.all (fun c => (digitVal c).isSome) = false → parseUint n body = Scan.syntaxError := by
  induction body with
  | nil => intro n _ h; simp at h
  | cons c cs ih =>
    intro n hn h
    unfold parseUint
    cases hc : digitVal c with
    | none => rfl
    | some d =>
      simp only [List.all_cons, hc, Option.isSome_some, Bool.true_and] at h
      have hd := digitVal_le c d hc
      have hP : 1 ≤ 10 ^ cs.length := Nat.pow_pos (by decide)
      rw [List.length_cons, Nat.pow_succ] at hn
      have h1 : (n + 1) * 10 ≤ (n + 1) * (10 ^ cs.length * 10) :=
        Nat.mul_le_mul_left _ (by omega)
      have h2 : (n * 10 + d + 1) * 10 ^ cs.length ≤ (n + 1) * (10 ^ cs.length * 10) := by
        calc (n * 10 + d + 1) * 10 ^ cs.length
            ≤ ((n + 1) * 10) * 10 ^ cs.length := Nat.mul_le_mul_right _ (by omega)
          _ = (n + 1) * (10 ^ cs.length * 10) := by ring
      have h3 : (10 : Nat) ^ 19 = 10000000000000000000 := by decide
      dsimp only
      rw [if_neg (by omega), if_neg (by omega)]
      exact ih _ (Nat.le_trans h2 hn) h

theorem signAndBody_length (s : List Char) : (signAndBody s).2.length ≤ s.length := by
  unfold signAndBody
  split <;> simp

theorem atoi_of_not_decimal (s : List Char) (h : isDecimalInt s = false) :
    (atoi s).2 = true
      ∧ ((atoi s).1 = 0 ∨ (atoi s).1 = maxInt64 ∨ (atoi s).1 = minInt64) := by
  unfold atoi
  unfold isDecimalInt at h
  by_cases he : (signAndBody s).2.isEmpty = true
  · simp [he]
  · simp only [he, Bool.not_false, Bool.true_and, Bool.not_eq_true] at h
    simp only [he]
    rcases parseUint_not_value _ 0 h with h1 | h1
    · rw [h1]
      simp
    · rw [h1]
      cases (signAndBody s).1 <;> simp

theorem atoi_of_not_decimal_short (s : List Char) (h : isDecimalInt s = false)
    (hlen : s.length ≤ 19) : atoi s = (0, true) := by
  unfold atoi
  unfold isDecimalInt at h
  by_cases he : (signAndBody s).2.isEmpty = true
  · simp [he]
  · simp only [he, Bool.not_false, Bool.true_and, Bool.not_eq_true] at h
    have hl := signAndBody_length s
    have hp : (0 + 1) * 10 ^ (signAndBody s).2.length ≤ 10 ^ 19 := by
      rw [Nat.zero_add, Nat.one_mul]
      exact Nat.pow_le_pow_right (by decide) (by omega)
    simp only [he, parseUint_syntax _ 0 hp h]
    rfl

theorem atoi_range (s : List Char) : minInt64 ≤ (atoi s).1 ∧ (atoi s).1 ≤ maxInt64 := by
  unfold atoi minInt64 maxInt64
  dsimp only
  split
  · simp
  · split
    · simp
    · split <;> simp
    · split
      · split <;> dsimp only <;> omega
      · split <;> dsimp only <;> omega

/-- Claim C9 as stated fails: "ab:30" is not a well-formed time of day (its
first part is not a decimal integer), yet `parseTimeStr` returns 30. -/
theorem parseTimeStr_malformed_nonzero :
    isDecimalInt "ab".data = false ∧ parseTimeStr "ab:30" = 30 := by
  decide

/-- Claim C9, amended: `parseTimeStr` is total; it returns 0 for every string
that does not have exactly two ':'-separated parts; for a string with two
parts, a part that is not a decimal integer counts as what `strconv.Atoi`
returns with its error dropped: 0 when the part has at most 19 characters,
and 0 or one of the two bounds of `int64` in general (the digits of a longer
part may overflow before the loop reaches the character that is not a
digit); so with parts of at most 19 characters the result is the minutes
part alone, sixty times the hours part alone, or 0 when neither part is a
decimal integer, while "99999999999999999999x:30" parses to -30. -/
theorem parseTimeStr_malformed (s : String) :
    ((splitColon s.data).length ≠ 2 → parseTimeStr s = 0)
      ∧ (∀ hs ms : List Char, splitColon s.data = [hs, ms] →
          (isDecimalInt hs = false →
            (atoi hs).1 = 0 ∨ (atoi hs).1 = maxInt64 ∨ (atoi hs).1 = minInt64)
          ∧ (isDecimalInt ms = false →
            (atoi ms).1 = 0 ∨ (atoi ms).1 = maxInt64 ∨ (atoi ms).1 = minInt64)
          ∧ (isDecimalInt hs = false → hs.length ≤ 19 → parseTimeStr s = (atoi ms).1)
          ∧ (isDecimalInt ms = false → ms.length ≤ 19 →
            parseTimeStr s = toInt64 ((atoi hs).1 * 60))
          ∧ (isDecimalInt hs = false → hs.length ≤ 19 → isDecimalInt ms = false →
            ms.length ≤ 19 → parseTimeStr s = 0))
      ∧ isDecimalInt "99999999999999999999x".data = false
      ∧ parseTimeStr "99999999999999999999x:30" = -30 := by
  refine ⟨fun hlen => ?_, fun hs ms hsplit =>
    ⟨fun h1 => (atoi_of_not_decimal hs h1).2, fun h2 => (atoi_of_not_decimal ms h2).2,
      fun h1 l1 => ?_, fun h2 l2 => ?_, fun h1 l1 h2 l2 => ?_⟩, by decide, by decide⟩
  · unfold parseTimeStr
    split
    · rename_i heq
      rw [heq] at hlen
      simp at hlen
    · rfl
  · have hr := atoi_range ms
    unfold minInt64 maxInt64 at hr
    simp only [parseTimeStr, hsplit, atoi_of_not_decimal_short hs h1 l1]
    rw [show toInt64 ((0 : Int) * 60) = 0 by decide, zero_add]
    exact toInt64_of_range _ (by omega) (by omega)
  · simp only [parseTimeStr, hsplit, atoi_of_not_decimal_short ms h2 l2, add_zero]
    unfold toInt64
    omega
  · simp only [parseTimeStr, hsplit, atoi_of_not_decimal_short hs h1 l1,
      atoi_of_not_decimal_short ms h2 l2]
    decide

/-! ## Rollover -/

theorem mapGet_retain_drop (m : List (String × Nat)) (keep : String → Bool) (k : String)
    (hk : keep k = false) : mapGet (mapRetain m keep) k = none := by
  induction m with
  | nil => rfl
  | cons kv rest ih =>
    simp only [mapGet, mapRetain, List.filter_cons] at ih ⊢
    by_cases hkeep : keep kv.1 = true
    · have hne : (kv.1 == k) = false := by
        have : kv.1 ≠ k := by
          intro heq
          rw [heq, hk] at hkeep
          cases hkeep
        simpa using this
      simp only [hkeep, if_true, List.find?_cons, hne]
      exact ih
    · simp only [hkeep, if_false]
      exact ih

theorem mapGet_retain_keep (m : List (String × Nat)) (keep : String → Bool) (k : String)
    (hk : keep k = true) : mapGet (mapRetain m keep) k = mapGet m k := by
  induction m with
  | nil => rfl
  | cons kv rest ih =>
    simp only [mapGet, mapRetain, List.filter_cons] at ih ⊢
    by_cases heq : kv.1 = k
    · have hkeep : keep kv.1 = true := by rw [heq]; exact hk
      have hbeq : (kv.1 == k) = true := by simpa using heq
      simp only [hkeep, if_true, List.find?_cons, hbeq]
    · have hne : (kv.1 == k) = false := by simpa using heq
      by_cases hkeep : keep kv.1 = true
      · simp only [hkeep, if_true, List.find?_cons, hne]
        exact ih
      · simp only [hkeep, if_false, List.find?_cons, hne]
        exact ih

theorem mapGet_mapSet_other (m : List (String × Nat)) (k k2 : String) (v : Nat)
    (hne : k2 ≠ k) : mapGet (mapSet m k2 v) k = mapGet m k := by
  have hlast : (k2 == k) = false := by simpa using hne
  induction m with
  | nil => simp [mapGet, mapSet, hlast]
  | cons kv rest ih =>
    simp only [mapGet, mapSet, List.filter_cons] at ih ⊢
    by_cases heq : kv.1 = k
    · have hbeq : (kv.1 == k) = true := by simpa using heq
      have hkeep : (kv.1 == k2) = false := by
        have : kv.1 ≠ k2 := by rw [heq]; exact fun h => hne h.symm
        simpa using this
      simp only [hkeep, Bool.not_false, if_true, List.cons_append, List.find?_cons, hbeq]
    · have hnb : (kv.1 == k) = false := by simpa using heq
      by_cases hkeep : (kv.1 == k2) = true
      · simp only [hkeep, Bool.not_true, List.find?_cons, hnb]
        exact ih
      · have hkeep2 : (kv.1 == k2) = false := by simpa using hkeep
        simp only [hkeep2, Bool.not_false, if_true, List.cons_append, List.find?_cons, hnb]
        exact ih

/-- Claim C3 as stated fails: with `TodayDate = "2024-12-31"`, `TodayBytes = 1`
and an empty archive, after the rollover on 2025-01-01 the archive has no
entry for "2024-12-31" (the yearly cleanup deleted the entry just archived),
so `Daily["2024-12-31"]` reads 0, not 1. -/
theorem checkDateChange_newYear_drops :
    mapGet
      (checkDateChange
        (sampleApp (sampleConfig 200 "00:00" "23:59" []) 1 "2024-12-31" [] true)
        "2025-01-01" "2025" "00:00:00").stats.Daily "2024-12-31" = none := by
  decide

/-- Claim C3, amended: running `checkDateChange` with
`TodayDate = "2024-12-31"`, any `TodayBytes` and any archive, on 2025-01-01,
yields `TodayBytes = 0`, `TodayDate = "2025-01-01"` and an archive from which
every date not prefixed by "2025" has been removed, the date "2024-12-31"
included, while every date prefixed by "2025" keeps its value. -/
theorem checkDateChange_newYear (app : App) (logTime : String)
    (hdate : app.stats.TodayDate = "2024-12-31") :
    (checkDateChange app "2025-01-01" "2025" logTime).stats.TodayBytes = 0
      ∧ (checkDateChange app "2025-01-01" "2025" logTime).stats.TodayDate = "2025-01-01"
      ∧ (∀ k : String, hasPrefix k "2025" = false →
          mapGet (checkDateChange app "2025-01-01" "2025" logTime).stats.Daily k = none)
      ∧ mapGet (checkDateChange app "2025-01-01" "2025" logTime).stats.Daily "2024-12-31" = none
      ∧ (∀ k : String, hasPrefix k "2025" = true →
          mapGet (checkDateChange app "2025-01-01" "2025" logTime).stats.Daily k
            = mapGet app.stats.Daily k) := by
  have hne : ¬ (app.stats.TodayDate = "2025-01-01") := by rw [hdate]; decide
  have hdrop : ∀ k : String, hasPrefix k "2025" = false →
      mapGet (checkDateChange app "2025-01-01" "2025" logTime).stats.Daily k = none := by
    intro k hk
    simp only [checkDateChange, hne, if_false, addLog]
    exact mapGet_retain_drop _ _ k hk
  refine ⟨?_, ?_, hdrop, hdrop _ (by decide), ?_⟩
  · simp only [checkDateChange, hne, if_false, addLog]
  · simp only [checkDateChange, hne, if_false, addLog]
  · intro k hk
    have hk2 : app.stats.TodayDate ≠ k := by
      intro h
      rw [← h, hdate] at hk
      revert hk
      decide
    simp only [checkDateChange, hne, if_false, addLog]
    rw [mapGet_retain_keep _ _ k hk]
    split
    · exact mapGet_mapSet_other _ _ _ _ hk2
    · rfl

/-- The amended claim C3 on an archive holding one day of 2024 and one of
2025: after the rollover only the day of 2025 is left. -/
theorem checkDateChange_newYear_witness :
    (checkDateChange
        (sampleApp (sampleConfig 200 "00:00" "23:59" []) 7 "2024-12-31"
          [("2024-06-01", 3), ("2025-01-01", 4)] true)
        "2025-01-01" "2025" "00:00:00").stats.TodayBytes = 0
      ∧ mapGet
        (checkDateChange
          (sampleApp (sampleConfig 200 "00:00" "23:59" []) 7 "2024-12-31"
            [("2024-06-01", 3), ("2025-01-01", 4)] true)
          "2025-01-01" "2025" "00:00:00").stats.Daily "2024-12-31" = none :=
  ⟨(checkDateChange_newYear
      (sampleApp (sampleConfig 200 "00:00" "23:59" []) 7 "2024-12-31"
        [("2024-06-01", 3), ("2025-01-01", 4)] true) "00:00:00" (by decide)).1,
    (checkDateChange_newYear
      (sampleApp (sampleConfig 200 "00:00" "23:59" []) 7 "2024-12-31"
        [("2024-06-01", 3), ("2025-01-01", 4)] true) "00:00:00" (by decide)).2.2.2.1⟩

/-! ## Configuration updates -/

/-- Claim C8 as stated fails: the payload `{}` decodes to a record whose
speed limit is 0, not a valid configuration, yet the POST succeeds and the
stored configuration is replaced by it. -/
theorem handleConfig_accepts_invalid :
    specValidConfig zeroConfig = false
      ∧ (handleConfig (sampleApp (sampleConfig 200 "00:00" "23:59" []) 0 "2025-01-01" [] true)
          "POST" (some zeroConfig) "00:00:00").2 = Reply.updated
      ∧ (handleConfig (sampleApp (sampleConfig 200 "00:00" "23:59" []) 0 "2025-01-01" [] true)
          "POST" (some zeroConfig) "00:00:00").1.config = zeroConfig
      ∧ (sampleApp (sampleConfig 200 "00:00" "23:59" []) 0 "2025-01-01" [] true).config
          ≠ zeroConfig := by
  decide

/-- Claim C8, amended: a POST whose payload cannot be decoded fails with
status 400 and leaves the whole state unchanged; a POST whose payload decodes
succeeds and the stored configuration afterwards equals the decoded record in
every field, whatever its speed limit and quota are (no validity check). -/
theorem handleConfig_post (app : App) (logTime : String) :
    handleConfig app "POST" none logTime = (app, Reply.error 400)
      ∧ ∀ cfg : Config,
          (handleConfig app "POST" (some cfg) logTime).1.config = cfg
          ∧ (handleConfig app "POST" (some cfg) logTime).2 = Reply.updated := by
  refine ⟨rfl, fun cfg => ⟨rfl, rfl⟩⟩

/-! ## Worker -/

/-- Claim C7 as stated fails: with the worker enabled, an empty target list
and the daily quota already reached, one turn of the loop stops at the quota
check: `isRunning` stays true and the status becomes "quota_reached". -/
theorem downloadWorkerTurn_quota_first :
    (sampleApp (sampleConfig 200 "00:00" "23:59" []) 200000000000 "2025-01-01" []
        true).isRunning = true
      ∧ (sampleApp (sampleConfig 200 "00:00" "23:59" []) 200000000000 "2025-01-01" []
        true).config.URLs = []
      ∧ (downloadWorkerTurn
          (sampleApp (sampleConfig 200 "00:00" "23:59" []) 200000000000 "2025-01-01" [] true)
          (sampleEnv 12 0)).app.isRunning = true
      ∧ (downloadWorkerTurn
          (sampleApp (sampleConfig 200 "00:00" "23:59" []) 200000000000 "2025-01-01" [] true)
          (sampleEnv 12 0)).app.status = "quota_reached" := by
  decide!

/-- Claim C7, amended: for every state in which the worker is enabled and the
target list is empty, one turn of the `downloadWorker` loop attempts no fetch;
if the clock is inside the schedule and the quota is not reached, the turn
takes the no-targets branch and afterwards `isRunning` is false and the status
is "stopped"; if the schedule check or the quota check fails first, the turn
ends there and `isRunning` stays true. -/
theorem downloadWorkerTurn_noTargets (app : App) (env : WorkerEnv)
    (hrun : app.isRunning = true) (hurls : app.config.URLs = []) :
    (downloadWorkerTurn app env).fetch.isNone = true
      ∧ (isInSchedule app env.hour env.minute = true → isQuotaReached app = false →
          (downloadWorkerTurn app env).app.isRunning = false
          ∧ (downloadWorkerTurn app env).app.status = "stopped")
      ∧ (isInSchedule app env.hour env.minute = false ∨ isQuotaReached app = true →
          (downloadWorkerTurn app env).app.isRunning = true) := by
  refine ⟨?_, fun hs hq => ?_, fun h => ?_⟩
  · unfold downloadWorkerTurn
    simp only [hrun, hurls, Bool.not_true, Bool.false_eq_true, if_false, List.length_nil, if_true]
    split
    · rfl
    · split <;> rfl
  · unfold downloadWorkerTurn
    simp only [hrun, hurls, hs, hq, Bool.not_true, Bool.false_eq_true, if_false,
      List.length_nil, if_true, and_self]
  · unfold downloadWorkerTurn
    simp only [hrun, hurls, Bool.not_true, Bool.false_eq_true, if_false, List.length_nil, if_true]
    split
    · rfl
    · split
      · rfl
      · rename_i h1 h2
        rcases h with h | h
        · simp [h] at h1
        · exact absurd h h2

/-- The amended claim C7 at the default schedule and quota with no targets,
at noon: the turn forces the worker off. -/
theorem downloadWorkerTurn_noTargets_witness :
    (downloadWorkerTurn
        (sampleApp (sampleConfig 200 "00:00" "23:59" []) 0 "2025-01-01" [] true)
        (sampleEnv 12 0)).app.isRunning = false
      ∧ (downloadWorkerTurn
        (sampleApp (sampleConfig 200 "00:00" "23:59" []) 0 "2025-01-01" [] true)
        (sampleEnv 12 0)).app.status = "stopped" :=
  (downloadWorkerTurn_noTargets
    (sampleApp (sampleConfig 200 "00:00" "23:59" []) 0 "2025-01-01" [] true)
    (sampleEnv 12 0) (by decide) (by decide)).2.1 (by decide) (by decide)

/-! ## Throughput history -/

theorem checkDateChange_speedHistory (app : App) (today thisYear logTime : String) :
    (checkDateChange app today thisYear logTime).speedHistory = app.speedHistory := by
  unfold checkDateChange
  split <;> rfl

theorem speedTrackerTick_history (app : App) (today thisYear logTime : String)
    (hlen : app.speedHistory.length = 30) :
    (speedTrackerTick app today thisYear logTime).speedHistory
      = app.speedHistory.tail ++ [(speedTrackerTick app today thisYear logTime).speedMbps] := by
  have hc := checkDateChange_speedHistory app today thisYear logTime
  simp only [speedTrackerTick, hc, List.length_append, hlen, List.length_singleton]
  simp only [show (30 + 1 > 30) = True from eq_true (by decide), if_true, Nat.add_sub_cancel_left]
  cases hh : app.speedHistory with
  | nil => rw [hh] at hlen; cases hlen
  | cons x xs => rfl

theorem speedTrackerTick_length (app : App) (today thisYear logTime : String)
    (hlen : app.speedHistory.length = 30) :
    (speedTrackerTick app today thisYear logTime).speedHistory.length = 30 := by
  rw [speedTrackerTick_history app today thisYear logTime hlen]
  simp [hlen]

theorem runTracker_length (ticks : List Tick) :
    ∀ app : App, app.speedHistory.length = 30 →
      (∀ t ∈ ticks, ∀ a : App, (t.others a).speedHistory = a.speedHistory) →
      (runTracker app ticks).speedHistory.length = 30 := by
  induction ticks with
  | nil => intro app h _; exact h
  | cons t ts ih =>
    intro app h hothers
    unfold runTracker
    apply ih
    · apply speedTrackerTick_length
      rw [hothers t (List.mem_cons_self _ _)]
      exact h
    · intro t2 ht2
      exact hothers t2 (List.mem_cons_of_mem _ ht2)

theorem runTracker_append (ticks : List Tick) (t : Tick) :
    ∀ app : App, runTracker app (ticks ++ [t])
      = speedTrackerTick (t.others (runTracker app ticks)) t.today t.thisYear t.logTime := by
  induction ticks with
  | nil => intro app; rfl
  | cons t2 ts ih =>
    intro app
    simp only [List.cons_append, runTracker]
    exact ih _

theorem mainApp_history (config : Config) (stats : Stats) (logs : LogStore)
    (logTime : String) : (mainApp config stats logs logTime).speedHistory.length = 30 := by
  simp [mainApp, addLog]

theorem checkDateChange_isRunning (app : App) (today thisYear logTime : String) :
    (checkDateChange app today thisYear logTime).isRunning = app.isRunning := by
  unfold checkDateChange
  split <;> rfl

theorem checkDateChange_bytesThisSecond (app : App) (today thisYear logTime : String) :
    (checkDateChange app today thisYear logTime).bytesThisSecond = app.bytesThisSecond := by
  unfold checkDateChange
  split <;> rfl

theorem speedTrackerTick_sample (app : App) (today thisYear logTime : String) :
    (speedTrackerTick app today thisYear logTime).speedMbps = trackerSample app := by
  simp only [speedTrackerTick, trackerSample, checkDateChange_isRunning,
    checkDateChange_bytesThisSecond]
  cases app.isRunning <;> rfl

/-- Claim C10: starting from the state built in `main`, after any number of
`speedTracker` ticks (the other goroutines leaving the history alone) the
length of `speedHistory` does not exceed 30, and it is exactly 30 once at
least 30 ticks have run; one more tick yields the previous history without
its oldest sample and with the new sample at the end, the new sample being
the bytes counted since the previous tick times 8 over 1e6 if `isRunning`
holds at the tick and 0 otherwise; the tick also stores the sample in
`speedMbps` and clears `bytesThisSecond`. -/
theorem speedTracker_history_bounded (config : Config) (stats : Stats) (logs : LogStore)
    (logTime : String) (ticks : List Tick) (t : Tick)
    (hothers : ∀ u ∈ ticks ++ [t], ∀ a : App, (u.others a).speedHistory = a.speedHistory) :
    (runTracker (mainApp config stats logs logTime) ticks).speedHistory.length ≤ 30
      ∧ (30 ≤ ticks.length →
          (runTracker (mainApp config stats logs logTime) ticks).speedHistory.length = 30)
      ∧ (runTracker (mainApp config stats logs logTime) (ticks ++ [t])).speedHistory
          = (runTracker (mainApp config stats logs logTime) ticks).speedHistory.tail
            ++ [trackerSample (t.others (runTracker (mainApp config stats logs logTime) ticks))]
      ∧ (runTracker (mainApp config stats logs logTime) (ticks ++ [t])).speedHistory
          = (runTracker (mainApp config stats logs logTime) ticks).speedHistory.tail
            ++ [(runTracker (mainApp config stats logs logTime) (ticks ++ [t])).speedMbps]
      ∧ (runTracker (mainApp config stats logs logTime) (ticks ++ [t])).bytesThisSecond = 0 := by
  have hlen : (runTracker (mainApp config stats logs logTime) ticks).speedHistory.length = 30 :=
    runTracker_length ticks _ (mainApp_history config stats logs logTime)
      (fun u hu => hothers u (List.mem_append_left _ hu))
  have ht := hothers t (List.mem_append_right _ (List.mem_singleton_self t))
  have h := speedTrackerTick_history
    (t.others (runTracker (mainApp config stats logs logTime) ticks)) t.today t.thisYear
    t.logTime (by rw [ht]; exact hlen)
  rw [ht] at h
  refine ⟨le_of_eq hlen, fun _ => hlen, ?_, ?_, ?_⟩
  · rw [runTracker_append, h, speedTrackerTick_sample]
  · rw [runTracker_append]
    exact h
  · rw [runTracker_append]
    rfl

/-- Claim C10 on the first tick after `main`, the fetcher having published
625000 bytes while running: the history is 29 zeros followed by the sample
5 = 625000 * 8 / 1e6. -/
theorem speedTracker_history_bounded_witness :
    (runTracker
        (mainApp (sampleConfig 200 "00:00" "23:59" [])
          { Daily := [], TodayBytes := 0, TodayDate := "2025-01-01" }
          { MaxEntries := 500, Entries := [] } "00:00:00")
        [{ others := fun a => { a with isRunning := true, bytesThisSecond := 625000 },
           today := "2025-01-01", thisYear := "2025", logTime := "00:00:01" }]
      ).speedHistory = List.replicate 29 F64.zero ++ [F64.ofNat 5] :=
  (speedTracker_history_bounded (sampleConfig 200 "00:00" "23:59" [])
    { Daily := [], TodayBytes := 0, TodayDate := "2025-01-01" }
    { MaxEntries := 500, Entries := [] } "00:00:00"
    []
    { others := fun a => { a with isRunning := true, bytesThisSecond := 625000 },
       today := "2025-01-01", thisYear := "2025", logTime := "00:00:01" }
    (by
      intro u hu a
      simp only [List.nil_append, List.mem_singleton] at hu
      rw [hu])).2.2.1.trans (by decide!)

/-! ## Byte accounting of the read loop -/

theorem chunkSum_append (reads : List ReadEvent) (e : ReadEvent) :
    chunkSum (reads ++ [e]) = chunkSum reads + e.n := by
  simp [chunkSum]

theorem account_inRange (bytesPerSec : Int) (s : Fetch) (n : Nat) :
    CountersInRange (account bytesPerSec s n) := by
  have hpos : 0 < 2 ^ 64 := by decide
  exact ⟨Nat.mod_lt _ hpos, Nat.mod_lt _ hpos, Nat.mod_lt _ hpos⟩

theorem readChunk_inRange (bytesPerSec : Int) (s : Fetch) (r : ReadStep)
    (hf : KeepsCounters r.during) (hs : CountersInRange s) :
    CountersInRange (readChunk bytesPerSec s r) := by
  have h := hf s.app
  unfold readChunk
  dsimp only
  split
  · exact account_inRange _ _ _
  · simp only [CountersInRange, h.1, h.2]
    exact hs

theorem publish_zero (a : App) (h1 : a.stats.TodayBytes < 2 ^ 64)
    (h2 : a.bytesThisSecond < 2 ^ 64) : publish a 0 = a := by
  unfold publish
  rw [Nat.add_zero, Nat.add_zero, Nat.mod_eq_of_lt h1, Nat.mod_eq_of_lt h2]

theorem readChunk_tally (bytesPerSec : Int) (s : Fetch) (r : ReadStep)
    (hf : KeepsCounters r.during) (hs : CountersInRange s) :
    (readChunk bytesPerSec s r).app = publish (r.during s.app) r.n
      ∧ (readChunk bytesPerSec s r).total = (s.total + r.n) % 2 ^ 64
      ∧ (readChunk bytesPerSec s r).reads.map ReadEvent.n
          = s.reads.map ReadEvent.n ++ [r.n].filter (fun n => 0 < n) := by
  have h := hf s.app
  unfold readChunk
  dsimp only
  split
  · rename_i hn
    refine ⟨rfl, rfl, ?_⟩
    simp [account, hn]
  · have hn : r.n = 0 := by omega
    refine ⟨?_, ?_, ?_⟩
    · rw [hn, publish_zero _ (by rw [h.1]; exact hs.2.1) (by rw [h.2]; exact hs.2.2)]
    · rw [hn, Nat.add_zero, Nat.mod_eq_of_lt hs.1]
    · simp [hn]

theorem lastErr_cons_nil (r : ReadStep) (l : List ReadStep) (h : r.err = ReadErr.nil) :
    (((r :: l).getLast?).map ReadStep.err).getD ReadErr.nil
      = ((l.getLast?).map ReadStep.err).getD ReadErr.nil := by
  cases l with
  | nil => simp [h]
  | cons x xs => simp [List.getLast?_cons_cons]

theorem readLoop_tally (bytesPerSec : Int) (body : List ReadStep) :
    ∀ s : Fetch, (∀ r ∈ body, KeepsCounters r.before ∧ KeepsCounters r.during) →
      CountersInRange s →
      (readLoop bytesPerSec s body).1.reads.map ReadEvent.n
          = s.reads.map ReadEvent.n ++ (chunksRead s.app body).filter (fun n => 0 < n)
        ∧ (readLoop bytesPerSec s body).1.total
          = (s.total + (chunksRead s.app body).sum) % 2 ^ 64
        ∧ (readLoop bytesPerSec s body).1.app.stats.TodayBytes
          = (s.app.stats.TodayBytes + (chunksRead s.app body).sum) % 2 ^ 64
        ∧ (readLoop bytesPerSec s body).1.app.bytesThisSecond
          = (s.app.bytesThisSecond + (chunksRead s.app body).sum) % 2 ^ 64
        ∧ ((readLoop bytesPerSec s body).2 = Ending.eof ↔ lastErr s.app body = ReadErr.eof)
        ∧ (∀ msg : String, (readLoop bytesPerSec s body).2 = Ending.failed msg
            ↔ lastErr s.app body = ReadErr.other msg)
        ∧ ((readLoop bytesPerSec s body).2 = Ending.aborted
            ↔ lastErr s.app body = ReadErr.nil ∧ readsDone s.app body < body.length)
        ∧ ((readLoop bytesPerSec s body).2 = Ending.pending
            ↔ lastErr s.app body = ReadErr.nil ∧ readsDone s.app body = body.length)
        ∧ ((readLoop bytesPerSec s body).2 = Ending.aborted →
            (readLoop bytesPerSec s body).1.app.isRunning = false
              ∨ isQuotaReached (readLoop bytesPerSec s body).1.app = true) := by
  induction body with
  | nil =>
    intro s _ hs
    obtain ⟨r1, r2, r3⟩ := hs
    simp only [readLoop, chunksRead, lastErr, readsDone, List.take_nil, List.map_nil,
      List.filter_nil, List.append_nil, List.sum_nil, Nat.add_zero, List.getLast?_nil,
      Option.map_none', Option.getD_none, List.length_nil, Nat.mod_eq_of_lt r1,
      Nat.mod_eq_of_lt r2, Nat.mod_eq_of_lt r3]
    simp
  | cons r rs ih =>
    intro s hk hs
    have hr := hk r (List.mem_cons_self _ _)
    have hrs : ∀ r2 ∈ rs, KeepsCounters r2.before ∧ KeepsCounters r2.during :=
      fun r2 h2 => hk r2 (List.mem_cons_of_mem _ h2)
    have hb := hr.1 s.app
    have h1 : CountersInRange { s with app := r.before s.app } := by
      simp only [CountersInRange, hb.1, hb.2]
      exact hs
    have h2 := readChunk_inRange bytesPerSec { s with app := r.before s.app } r hr.2 h1
    obtain ⟨t1, t2, t3⟩ := readChunk_tally bytesPerSec { s with app := r.before s.app } r hr.2 h1
    dsimp only at t1 t2 t3
    by_cases hab : (!(r.before s.app).isRunning || isQuotaReached (r.before s.app)) = true
    · have hk0 : readsDone s.app (r :: rs) = 0 := by simp only [readsDone, hab, if_true]
      have hl : readLoop bytesPerSec s (r :: rs)
          = ({ s with app := r.before s.app }, Ending.aborted) := by
        simp only [readLoop, hab, if_true]
      simp only [hl, chunksRead, lastErr, hk0, List.take_zero, List.map_nil, List.filter_nil,
        List.append_nil, List.sum_nil, Nat.add_zero, List.getLast?_nil, Option.map_none',
        Option.getD_none, hb.1, hb.2, Nat.mod_eq_of_lt hs.1, Nat.mod_eq_of_lt hs.2.1,
        Nat.mod_eq_of_lt hs.2.2, List.length_cons]
      simp only [Bool.or_eq_true, Bool.not_eq_true'] at hab
      simp [hab]
    · cases herr : r.err with
      | nil =>
        have hk1 : readsDone s.app (r :: rs)
            = readsDone (readChunk bytesPerSec { s with app := r.before s.app } r).app rs + 1 := by
          simp only [readsDone, hab, herr, t1]
          rfl
        have hl : readLoop bytesPerSec s (r :: rs)
            = readLoop bytesPerSec (readChunk bytesPerSec { s with app := r.before s.app } r)
                rs := by
          simp only [readLoop, hab, herr]
          rfl
        have hc : chunksRead s.app (r :: rs)
            = r.n :: chunksRead (readChunk bytesPerSec { s with app := r.before s.app } r).app
                rs := by
          simp only [chunksRead, hk1, List.take_succ_cons, List.map_cons]
        have he : lastErr s.app (r :: rs)
            = lastErr (readChunk bytesPerSec { s with app := r.before s.app } r).app rs := by
          simp only [lastErr, hk1, List.take_succ_cons]
          exact lastErr_cons_nil r _ herr
        obtain ⟨i1, i2, i3, i4, i5, i6, i7, i8, i9⟩ :=
          ih (readChunk bytesPerSec { s with app := r.before s.app } r) hrs h2
        rw [hl, hc, he, hk1]
        refine ⟨?_, ?_, ?_, ?_, i5, i6, ?_, ?_, i9⟩
        · rw [i1, t3]
          by_cases hn : 0 < r.n <;> simp [List.filter_cons, hn]
        · rw [i2, t2, List.sum_cons, Nat.add_mod, Nat.mod_mod, ← Nat.add_mod, Nat.add_assoc]
        · rw [i3, t1]
          simp only [publish, hr.2 _ |>.1, hb.1, List.sum_cons]
          rw [Nat.add_mod, Nat.mod_mod, ← Nat.add_mod, Nat.add_assoc]
        · rw [i4, t1]
          simp only [publish, hr.2 _ |>.2, hb.2, List.sum_cons]
          rw [Nat.add_mod, Nat.mod_mod, ← Nat.add_mod, Nat.add_assoc]
        · rw [i7, List.length_cons]
          simp
        · rw [i8, List.length_cons]
          simp
      | eof =>
        have hk1 : readsDone s.app (r :: rs) = 1 := by
          simp only [readsDone, hab, herr]
          rfl
        have hl : readLoop bytesPerSec s (r :: rs)
            = (readChunk bytesPerSec { s with app := r.before s.app } r, Ending.eof) := by
          simp only [readLoop, hab, herr]
          rfl
        have hc : chunksRead s.app (r :: rs) = [r.n] := by
          simp [chunksRead, hk1]
        have he : lastErr s.app (r :: rs) = ReadErr.eof := by
          simp [lastErr, hk1, herr]
        rw [hl, hc, he, hk1]
        dsimp only
        refine ⟨t3, ?_, ?_, ?_, by simp, by simp, by simp, by simp, by simp⟩
        · rw [t2]; simp
        · rw [t1]; simp [publish, (hr.2 _).1, hb.1]
        · rw [t1]; simp [publish, (hr.2 _).2, hb.2]
      | other m =>
        have hk1 : readsDone s.app (r :: rs) = 1 := by
          simp only [readsDone, hab, herr]
          rfl
        have hl : readLoop bytesPerSec s (r :: rs)
            = (readChunk bytesPerSec { s with app := r.before s.app } r, Ending.failed m) := by
          simp only [readLoop, hab, herr]
          rfl
        have hc : chunksRead s.app (r :: rs) = [r.n] := by
          simp [chunksRead, hk1]
        have he : lastErr s.app (r :: rs) = ReadErr.other m := by
          simp [lastErr, hk1, herr]
        rw [hl, hc, he, hk1]
        dsimp only
        refine ⟨t3, ?_, ?_, ?_, by simp, ?_, by simp, by simp, by simp⟩
        · rw [t2]; simp
        · rw [t1]; simp [publish, (hr.2 _).1, hb.1]
        · rw [t1]; simp [publish, (hr.2 _).2, hb.2]
        · intro msg
          simp only [Ending.failed.injEq, ReadErr.other.injEq]

theorem sum_filter_pos (l : List Nat) : (l.filter (fun n => 0 < n)).sum = l.sum := by
  induction l with
  | nil => rfl
  | cons x xs ih =>
    by_cases hx : 0 < x
    · simp [List.filter_cons, hx, ih]
    · have h0 : x = 0 := by omega
      simp [List.filter_cons, h0, ih]

/-- Claim C2 as stated fails: with `TodayBytes = 2 ^ 64 - 513` and a quota
whose threshold `uint64(quota) * 1e9` is `2 ^ 64 - 512`, the abort check lets
one read of 1024 bytes through; the returned count is 1024, but `TodayBytes`
wraps to 511 instead of growing by 1024. -/
theorem doDownload_counter_wraps :
    (doDownload
        (sampleApp (sampleConfig 15817289833210771 "00:00" "23:59" []) 18446744073709551103
          "2025-01-01" [] true)
        5 (Response.arrived 200 [quietStep 1000 1024 ReadErr.eof]) 0).total = 1024
      ∧ (doDownload
        (sampleApp (sampleConfig 15817289833210771 "00:00" "23:59" []) 18446744073709551103
          "2025-01-01" [] true)
        5 (Response.arrived 200 [quietStep 1000 1024 ReadErr.eof]) 0).state.app.stats.TodayBytes
          = 511
      ∧ (511 : Nat) < 18446744073709551103 + 1024 := by
  decide!

/-- Claim C2, amended: for every finite sequence of read results fed to the
loop of `doDownload`, with no other writer to the counters, the reads that
the loop performs are those that `readsDone` counts on the input, and
however the loop ends, the returned byte count equals the sum of the sizes
of the chunks they returned modulo `2 ^ 64`, `stats.TodayBytes` and
`bytesThisSecond` have each grown by that sum modulo `2 ^ 64` (by exactly
that sum whenever the counter does not wrap), and the returned error is
non-nil exactly when the last read performed reported an error other than
end-of-stream, in which case it is that error; the loop ends cleanly on
end-of-stream exactly when the last read performed reported it, and on the
abort check exactly when no read reported anything and reads are left over,
the check then holding on the shared state. -/
theorem doDownload_accounting (app : App) (speedLimitMbps : Int) (body : List ReadStep)
    (start : Nat) (out : Download)
    (hout : out = doDownload app speedLimitMbps (Response.arrived 200 body) start)
    (hothers : ∀ r ∈ body, KeepsCounters r.before ∧ KeepsCounters r.during)
    (htoday : app.stats.TodayBytes < 2 ^ 64) (hsec : app.bytesThisSecond < 2 ^ 64) :
    out.total = (chunksRead app body).sum % 2 ^ 64
      ∧ out.state.app.stats.TodayBytes
        = (app.stats.TodayBytes + (chunksRead app body).sum) % 2 ^ 64
      ∧ out.state.app.bytesThisSecond
        = (app.bytesThisSecond + (chunksRead app body).sum) % 2 ^ 64
      ∧ ((chunksRead app body).sum < 2 ^ 64 → out.total = (chunksRead app body).sum)
      ∧ (app.stats.TodayBytes + (chunksRead app body).sum < 2 ^ 64 →
          out.state.app.stats.TodayBytes = app.stats.TodayBytes + (chunksRead app body).sum)
      ∧ (app.bytesThisSecond + (chunksRead app body).sum < 2 ^ 64 →
          out.state.app.bytesThisSecond = app.bytesThisSecond + (chunksRead app body).sum)
      ∧ out.state.reads.map ReadEvent.n = (chunksRead app body).filter (fun n => 0 < n)
      ∧ chunkSum out.state.reads = (chunksRead app body).sum
      ∧ (∀ msg : String, out.err = some msg ↔ lastErr app body = ReadErr.other msg)
      ∧ (out.err = none ↔ ∀ msg : String, lastErr app body ≠ ReadErr.other msg)
      ∧ (out.ending = Ending.eof ↔ lastErr app body = ReadErr.eof)
      ∧ (∀ msg : String, out.ending = Ending.failed msg ↔ lastErr app body = ReadErr.other msg)
      ∧ (out.ending = Ending.aborted
          ↔ lastErr app body = ReadErr.nil ∧ readsDone app body < body.length)
      ∧ (out.ending = Ending.pending
          ↔ lastErr app body = ReadErr.nil ∧ readsDone app body = body.length)
      ∧ (out.ending = Ending.aborted →
          out.state.app.isRunning = false ∨ isQuotaReached out.state.app = true) := by
  have hd : doDownload app speedLimitMbps (Response.arrived 200 body) start
      = { state := (readLoop (bytesPerSecOf speedLimitMbps) (Fetch.init app start) body).1,
          ending := (readLoop (bytesPerSecOf speedLimitMbps) (Fetch.init app start) body).2,
          total := (readLoop (bytesPerSecOf speedLimitMbps) (Fetch.init app start) body).1.total,
          err := (readLoop (bytesPerSecOf speedLimitMbps) (Fetch.init app start) body).2.error } := by
    simp [doDownload]
  rw [hout, hd]
  dsimp only
  have hinit : CountersInRange (Fetch.init app start) :=
    ⟨Nat.pos_of_ne_zero (by decide), htoday, hsec⟩
  obtain ⟨i1, i2, i3, i4, i5, i6, i7, i8, i9⟩ :=
    readLoop_tally (bytesPerSecOf speedLimitMbps) body (Fetch.init app start) hothers hinit
  have j1 : (readLoop (bytesPerSecOf speedLimitMbps) (Fetch.init app start) body).1.reads.map
      ReadEvent.n = (chunksRead app body).filter (fun n => 0 < n) := by
    rw [i1]
    simp [Fetch.init]
  have j2 : (readLoop (bytesPerSecOf speedLimitMbps) (Fetch.init app start) body).1.total
      = (chunksRead app body).sum % 2 ^ 64 := by
    rw [i2]
    simp [Fetch.init]
  have j3 : (readLoop (bytesPerSecOf speedLimitMbps) (Fetch.init app start)
      body).1.app.stats.TodayBytes
        = (app.stats.TodayBytes + (chunksRead app body).sum) % 2 ^ 64 := i3
  have j4 : (readLoop (bytesPerSecOf speedLimitMbps) (Fetch.init app start)
      body).1.app.bytesThisSecond
        = (app.bytesThisSecond + (chunksRead app body).sum) % 2 ^ 64 := i4
  have j5 : (readLoop (bytesPerSecOf speedLimitMbps) (Fetch.init app start) body).2 = Ending.eof
      ↔ lastErr app body = ReadErr.eof := i5
  have j6 : ∀ msg : String,
      (readLoop (bytesPerSecOf speedLimitMbps) (Fetch.init app start) body).2 = Ending.failed msg
        ↔ lastErr app body = ReadErr.other msg := i6
  have j7 : (readLoop (bytesPerSecOf speedLimitMbps) (Fetch.init app start) body).2
      = Ending.aborted ↔ lastErr app body = ReadErr.nil ∧ readsDone app body < body.length := i7
  have j8 : (readLoop (bytesPerSecOf speedLimitMbps) (Fetch.init app start) body).2
      = Ending.pending ↔ lastErr app body = ReadErr.nil ∧ readsDone app body = body.length := i8
  have jerr : ∀ msg : String,
      (readLoop (bytesPerSecOf speedLimitMbps) (Fetch.init app start) body).2.error = some msg
        ↔ lastErr app body = ReadErr.other msg := by
    intro msg
    rw [← j6 msg]
    cases (readLoop (bytesPerSecOf speedLimitMbps) (Fetch.init app start) body).2 <;>
      simp [Ending.error]
  refine ⟨j2, j3, j4, fun h => ?_, fun h => ?_, fun h => ?_, j1, ?_, jerr, ?_, j5, j6, j7, j8,
    i9⟩
  · rw [j2, Nat.mod_eq_of_lt h]
  · rw [j3, Nat.mod_eq_of_lt h]
  · rw [j4, Nat.mod_eq_of_lt h]
  · unfold chunkSum
    rw [j1, sum_filter_pos]
  · constructor
    · intro hn msg hm
      rw [(jerr msg).mpr hm] at hn
      cases hn
    · intro hall
      cases he : (readLoop (bytesPerSecOf speedLimitMbps) (Fetch.init app start) body).2.error with
      | none => rfl
      | some m => exact absurd ((jerr m).mp he) (hall m)

/-- The amended claim C2 on a body of two chunks, 32768 bytes and then 1000
bytes with a read error: 33768 bytes are returned, together with the
error. -/
theorem doDownload_accounting_witness :
    (doDownload (sampleApp (sampleConfig 200 "00:00" "23:59" []) 0 "2025-01-01" [] true) 5
        (Response.arrived 200
          [quietStep 1000 32768 ReadErr.nil, quietStep 1000 1000 (ReadErr.other "reset")])
        0).total = 33768
      ∧ (doDownload (sampleApp (sampleConfig 200 "00:00" "23:59" []) 0 "2025-01-01" [] true) 5
        (Response.arrived 200
          [quietStep 1000 32768 ReadErr.nil, quietStep 1000 1000 (ReadErr.other "reset")])
        0).err = some "reset" :=
  have h := doDownload_accounting
    (sampleApp (sampleConfig 200 "00:00" "23:59" []) 0 "2025-01-01" [] true)
    5 [quietStep 1000 32768 ReadErr.nil, quietStep 1000 1000 (ReadErr.other "reset")] 0 _ rfl
    (by
      intro r hr
      simp only [List.mem_cons, List.mem_singleton, List.not_mem_nil, or_false] at hr
      rcases hr with h | h <;> rw [h] <;> exact ⟨fun a => ⟨rfl, rfl⟩, fun a => ⟨rfl, rfl⟩⟩)
    (by decide) (by decide)
  ⟨h.1.trans (by decide!), (h.2.2.2.2.2.2.2.2.1 "reset").mpr (by decide!)⟩

/-! ## Bounds on the floating-point arithmetic -/

theorem roundHalfEven_ge (a b : Nat) : a / b ≤ roundHalfEven a b := by
  unfold roundHalfEven
  dsimp only
  split
  · exact Nat.le_refl _
  · split
    · exact Nat.le_succ _
    · split
      · exact Nat.le_refl _
      · exact Nat.le_succ _

theorem roundHalfEven_lower (a b c : Nat) (hb : 0 < b) (h : c * b ≤ a) :
    c ≤ roundHalfEven a b :=
  Nat.le_trans ((Nat.le_div_iff_mul_le hb).mpr h) (roundHalfEven_ge a b)

theorem roundHalfEven_upper (a b c : Nat) (hb : 0 < b) (h : a ≤ c * b) :
    roundHalfEven a b ≤ c := by
  have hq : a / b ≤ c := Nat.div_le_of_le_mul (by rw [Nat.mul_comm]; exact h)
  have hdm := Nat.div_add_mod a b
  have hr := Nat.mod_lt a hb
  rcases Nat.lt_or_ge (a / b) c with hlt | hge
  · have hle : roundHalfEven a b ≤ a / b + 1 := by
      unfold roundHalfEven
      dsimp only
      split
      · exact Nat.le_succ _
      · split
        · exact Nat.le_refl _
        · split
          · exact Nat.le_succ _
          · exact Nat.le_refl _
    omega
  · have hqc : a / b = c := Nat.le_antisymm hq hge
    have hmul : b * (a / b) = c * b := by rw [hqc, Nat.mul_comm]
    have hr0 : a % b = 0 := by omega
    unfold roundHalfEven
    dsimp only
    rw [hr0]
    simp only [Nat.mul_zero, hb, if_true]
    exact hq

theorem log2Aux_eq (fuel : Nat) : ∀ n : Nat, n ≤ fuel → log2Aux fuel n = n.log2 := by
  induction fuel with
  | zero =>
    intro n hn
    have : n = 0 := by omega
    subst this
    simp [log2Aux, Nat.log2]
  | succ f ih =>
    intro n hn
    unfold log2Aux
    rw [Nat.log2]
    split
    · rw [ih (n / 2) (by omega)]
    · rfl

theorem floorLog2_eq (n : Nat) : floorLog2 n = n.log2 := log2Aux_eq n n (Nat.le_refl n)

theorem floorLog2Ratio_le (num den j : Nat) (hnum : 0 < num)
    (hj : (j : Int) ≤ floorLog2Ratio num den) : den * 2 ^ j ≤ num := by
  have h1 : 2 ^ num.log2 ≤ num := Nat.log2_self_le (Nat.pos_iff_ne_zero.mp hnum)
  have h2 : den < 2 ^ (den.log2 + 1) := Nat.lt_log2_self
  unfold floorLog2Ratio at hj
  rw [floorLog2_eq, floorLog2_eq] at hj
  dsimp only at hj
  split at hj
  · rename_i hc
    have hk : ((num.log2 : Int) - (den.log2 : Int)).toNat = num.log2 - den.log2 := by omega
    have hk2 : (-((num.log2 : Int) - (den.log2 : Int))).toNat = 0 := by omega
    rw [hk, hk2, Nat.pow_zero, Nat.mul_one] at hc
    have hp : 2 ^ j ≤ 2 ^ (num.log2 - den.log2) :=
      Nat.pow_le_pow_right (by decide) (by omega)
    exact Nat.le_trans (Nat.mul_le_mul_left den hp) hc
  · have hp : 2 ^ (den.log2 + 1 + j) ≤ 2 ^ num.log2 :=
      Nat.pow_le_pow_right (by decide) (by omega)
    have hpos : 0 < 2 ^ j := Nat.pow_pos (by decide)
    have hlt : den * 2 ^ j < 2 ^ (den.log2 + 1) * 2 ^ j := Nat.mul_lt_mul_of_pos_right h2 hpos
    rw [← Nat.pow_add] at hlt
    omega

theorem f64Round_den_pos (num den : Nat) : 0 < (f64Round num den).den := by
  unfold f64Round
  dsimp only
  split
  · exact Nat.one_pos
  · split
    · exact Nat.one_pos
    · exact Nat.pow_pos (by decide)

/-- Rounding does not go below an integer up to `2 ^ 53` that the exact value
reaches. -/
theorem f64Round_lower (num den c : Nat) (hden : 0 < den) (hc : c ≤ 2 ^ 53)
    (h : c * den ≤ num) : c * (f64Round num den).den ≤ (f64Round num den).num := by
  unfold f64Round
  dsimp only
  split
  · rename_i h0
    rcases h0 with h0 | h0
    · rw [h0] at h
      have : c = 0 := by
        rcases Nat.eq_zero_or_pos c with h3 | h3
        · exact h3
        · have := Nat.mul_pos h3 hden
          omega
      simp [this]
    · omega
  · rename_i h0
    have hnum : 0 < num := by omega
    split
    · rename_i he
      have hlog := floorLog2Ratio_le num den ((floorLog2Ratio num den - 52).toNat + 52) hnum
        (by omega)
      have hpos : 0 < den * 2 ^ (floorLog2Ratio num den - 52).toNat :=
        Nat.mul_pos hden (Nat.pow_pos (by decide))
      dsimp only
      rw [Nat.mul_one]
      rcases Nat.eq_zero_or_pos (floorLog2Ratio num den - 52).toNat with hz | hp
      · rw [hz, Nat.pow_zero, Nat.mul_one, Nat.mul_one]
        exact roundHalfEven_lower num den c hden h
      · have hm : 2 ^ 52 ≤ roundHalfEven num (den * 2 ^ (floorLog2Ratio num den - 52).toNat) := by
          apply roundHalfEven_lower _ _ _ hpos
          rw [Nat.pow_add] at hlog
          calc 2 ^ 52 * (den * 2 ^ (floorLog2Ratio num den - 52).toNat)
              = den * (2 ^ (floorLog2Ratio num den - 52).toNat * 2 ^ 52) := by ring
            _ ≤ num := hlog
        have h2 : 2 ≤ 2 ^ (floorLog2Ratio num den - 52).toNat := by
          calc 2 = 2 ^ 1 := rfl
            _ ≤ 2 ^ (floorLog2Ratio num den - 52).toNat := Nat.pow_le_pow_right (by decide) hp
        calc c ≤ 2 ^ 53 := hc
          _ = 2 ^ 52 * 2 := rfl
          _ ≤ roundHalfEven num (den * 2 ^ (floorLog2Ratio num den - 52).toNat)
                * 2 ^ (floorLog2Ratio num den - 52).toNat := Nat.mul_le_mul hm h2
    · dsimp only
      apply roundHalfEven_lower _ _ _ hden
      calc c * 2 ^ (-(floorLog2Ratio num den - 52)).toNat * den
          = c * den * 2 ^ (-(floorLog2Ratio num den - 52)).toNat := by ring
        _ ≤ num * 2 ^ (-(floorLog2Ratio num den - 52)).toNat := Nat.mul_le_mul_right _ h

/-- Rounding does not go above an integer below `2 ^ 53` that bounds the exact
value. -/
theorem f64Round_upper (num den c : Nat) (hden : 0 < den) (hc : c < 2 ^ 53)
    (h : num ≤ c * den) : (f64Round num den).num ≤ c * (f64Round num den).den := by
  unfold f64Round
  dsimp only
  split
  · simp
  · rename_i h0
    have hnum : 0 < num := by omega
    split
    · rename_i he
      have hlog := floorLog2Ratio_le num den ((floorLog2Ratio num den - 52).toNat + 52) hnum
        (by omega)
      dsimp only
      rw [Nat.mul_one]
      have hz : (floorLog2Ratio num den - 52).toNat = 0 := by
        rcases Nat.eq_zero_or_pos (floorLog2Ratio num den - 52).toNat with hz | hp
        · exact hz
        · exfalso
          have h53 : 2 ^ 53 ≤ 2 ^ ((floorLog2Ratio num den - 52).toNat + 52) :=
            Nat.pow_le_pow_right (by decide) (by omega)
          have h1 : den * 2 ^ 53 ≤ num := Nat.le_trans (Nat.mul_le_mul_left den h53) hlog
          have h2 : c * den < 2 ^ 53 * den := Nat.mul_lt_mul_of_pos_right hc hden
          have h3 : den * 2 ^ 53 = 2 ^ 53 * den := Nat.mul_comm _ _
          omega
      rw [hz, Nat.pow_zero, Nat.mul_one, Nat.mul_one]
      exact roundHalfEven_upper num den c hden h
    · dsimp only
      apply roundHalfEven_upper _ _ _ hden
      calc num * 2 ^ (-(floorLog2Ratio num den - 52)).toNat
          ≤ c * den * 2 ^ (-(floorLog2Ratio num den - 52)).toNat := Nat.mul_le_mul_right _ h
        _ = c * 2 ^ (-(floorLog2Ratio num den - 52)).toNat * den := by ring

/-- An integer below `2 ^ 53` converts to `float64` without rounding. -/
theorem F64.ofNat_exact (n : Nat) (hn : n < 2 ^ 53) :
    (F64.ofNat n).num = n * (F64.ofNat n).den := by
  have h1 := f64Round_lower n 1 n Nat.one_pos (Nat.le_of_lt hn) (by simp)
  have h2 := f64Round_upper n 1 n Nat.one_pos hn (by simp)
  exact Nat.le_antisymm h2 h1

theorem roundHalfEven_le_succ (a b : Nat) : roundHalfEven a b ≤ a / b + 1 := by
  unfold roundHalfEven
  dsimp only
  split
  · exact Nat.le_succ _
  · split
    · exact Nat.le_refl _
    · split
      · exact Nat.le_succ _
      · exact Nat.le_refl _

theorem roundHalfEven_mono (a b d : Nat) (hab : a ≤ b) :
    roundHalfEven a d ≤ roundHalfEven b d := by
  have hq : a / d ≤ b / d := Nat.div_le_div_right hab
  rcases Nat.lt_or_ge (a / d) (b / d) with hlt | hge
  · exact Nat.le_trans (roundHalfEven_le_succ a d) (Nat.le_trans hlt (roundHalfEven_ge b d))
  · have heq : a / d = b / d := Nat.le_antisymm hq hge
    have ha := Nat.div_add_mod a d
    have hb := Nat.div_add_mod b d
    have hr : a % d ≤ b % d := by
      rw [heq] at ha
      omega
    unfold roundHalfEven
    dsimp only
    rw [heq]
    split
    · split
      · exact Nat.le_refl _
      · split
        · exact Nat.le_succ _
        · split
          · exact Nat.le_refl _
          · exact Nat.le_succ _
    · split
      · rw [if_neg (by omega), if_pos (by omega)]
      · have h2a : 2 * (a % d) = d := by omega
        split
        · split
          · omega
          · split <;> omega
        · split
          · omega
          · split <;> omega

theorem floorLog2Ratio_one (n : Nat) (hn : 0 < n) : floorLog2Ratio n 1 = (n.log2 : Int) := by
  have h1 : 2 ^ n.log2 ≤ n := Nat.log2_self_le (Nat.pos_iff_ne_zero.mp hn)
  have h0 : floorLog2 1 = 0 := by decide
  unfold floorLog2Ratio
  rw [h0, floorLog2_eq]
  dsimp only
  have hk : ((n.log2 : Int) - ((0 : Nat) : Int)).toNat = n.log2 := by omega
  have hk2 : (-((n.log2 : Int) - ((0 : Nat) : Int))).toNat = 0 := by omega
  rw [hk, hk2, if_pos (by omega)]
  omega

/-- The conversion of an integer of at least `2 ^ 53`: its leading 53 bits,
rounded, times the power of two that was cut off. -/
theorem F64.ofNat_big (n : Nat) (hn : 2 ^ 53 ≤ n) :
    F64.ofNat n = ⟨roundHalfEven n (2 ^ (n.log2 - 52)) * 2 ^ (n.log2 - 52), 1⟩ := by
  have hpos : 0 < n := Nat.lt_of_lt_of_le (by decide) hn
  have hlog : 53 ≤ n.log2 := (Nat.le_log2 (Nat.pos_iff_ne_zero.mp hpos)).mpr hn
  unfold F64.ofNat f64Round
  dsimp only
  rw [if_neg (by omega), floorLog2Ratio_one n hpos, if_pos (by omega)]
  have he : ((n.log2 : Int) - 52).toNat = n.log2 - 52 := by omega
  rw [he, Nat.one_mul]

theorem F64.ofNat_mono (a b : Nat) (hab : a ≤ b) :
    (F64.ofNat a).num * (F64.ofNat b).den ≤ (F64.ofNat b).num * (F64.ofNat a).den := by
  rcases Nat.lt_or_ge b (2 ^ 53) with hb | hb
  · have ha : a < 2 ^ 53 := Nat.lt_of_le_of_lt hab hb
    rw [F64.ofNat_exact a ha, F64.ofNat_exact b hb]
    calc a * (F64.ofNat a).den * (F64.ofNat b).den
        ≤ b * (F64.ofNat a).den * (F64.ofNat b).den :=
          Nat.mul_le_mul_right _ (Nat.mul_le_mul_right _ hab)
      _ = b * (F64.ofNat b).den * (F64.ofNat a).den := by ring
  · rcases Nat.lt_or_ge a (2 ^ 53) with ha | ha
    · have hlow := f64Round_lower b 1 (2 ^ 53) Nat.one_pos (Nat.le_refl _) (by omega)
      rw [F64.ofNat_exact a ha]
      calc a * (F64.ofNat a).den * (F64.ofNat b).den
          ≤ 2 ^ 53 * (F64.ofNat a).den * (F64.ofNat b).den :=
            Nat.mul_le_mul_right _ (Nat.mul_le_mul_right _ (Nat.le_of_lt ha))
        _ = 2 ^ 53 * (F64.ofNat b).den * (F64.ofNat a).den := by ring
        _ ≤ (F64.ofNat b).num * (F64.ofNat a).den := Nat.mul_le_mul_right _ hlow
    · have hapos : 0 < a := Nat.lt_of_lt_of_le (by decide) ha
      have hbpos : 0 < b := Nat.lt_of_lt_of_le (by decide) hb
      have hla : 53 ≤ a.log2 := (Nat.le_log2 (Nat.pos_iff_ne_zero.mp hapos)).mpr ha
      have hlb : 53 ≤ b.log2 := (Nat.le_log2 (Nat.pos_iff_ne_zero.mp hbpos)).mpr hb
      have h2a : 2 ^ a.log2 ≤ a := Nat.log2_self_le (Nat.pos_iff_ne_zero.mp hapos)
      have h2b : 2 ^ b.log2 ≤ b := Nat.log2_self_le (Nat.pos_iff_ne_zero.mp hbpos)
      have hlab : a.log2 ≤ b.log2 :=
        (Nat.le_log2 (Nat.pos_iff_ne_zero.mp hbpos)).mpr (Nat.le_trans h2a hab)
      rw [F64.ofNat_big a ha, F64.ofNat_big b hb]
      dsimp only
      rw [Nat.mul_one, Nat.mul_one]
      rcases Nat.lt_or_ge a.log2 b.log2 with hlt | hge
      · have hup : roundHalfEven a (2 ^ (a.log2 - 52)) ≤ 2 ^ 53 := by
          apply roundHalfEven_upper _ _ _ (Nat.pow_pos (by decide))
          rw [← Nat.pow_add]
          have : 53 + (a.log2 - 52) = a.log2 + 1 := by omega
          rw [this]
          exact Nat.le_of_lt Nat.lt_log2_self
        have hlo : 2 ^ 52 ≤ roundHalfEven b (2 ^ (b.log2 - 52)) := by
          apply roundHalfEven_lower _ _ _ (Nat.pow_pos (by decide))
          rw [← Nat.pow_add]
          have : 52 + (b.log2 - 52) = b.log2 := by omega
          rw [this]
          exact h2b
        calc roundHalfEven a (2 ^ (a.log2 - 52)) * 2 ^ (a.log2 - 52)
            ≤ 2 ^ 53 * 2 ^ (a.log2 - 52) := Nat.mul_le_mul_right _ hup
          _ = 2 ^ (53 + (a.log2 - 52)) := (Nat.pow_add _ _ _).symm
          _ ≤ 2 ^ (52 + (b.log2 - 52)) := Nat.pow_le_pow_right (by decide) (by omega)
          _ = 2 ^ 52 * 2 ^ (b.log2 - 52) := Nat.pow_add _ _ _
          _ ≤ roundHalfEven b (2 ^ (b.log2 - 52)) * 2 ^ (b.log2 - 52) :=
            Nat.mul_le_mul_right _ hlo
      · have heq : a.log2 = b.log2 := Nat.le_antisymm hlab hge
        rw [heq]
        exact Nat.mul_le_mul_right _ (roundHalfEven_mono a b _ hab)

/-- The conversion to `float64` is within a factor of two of the integer. -/
theorem F64.ofNat_crude (n : Nat) :
    (F64.ofNat n).num ≤ 2 * n * (F64.ofNat n).den
      ∧ n * (F64.ofNat n).den ≤ 2 * (F64.ofNat n).num := by
  rcases Nat.lt_or_ge n (2 ^ 53) with hn | hn
  · rw [F64.ofNat_exact n hn]
    constructor
    · calc n * (F64.ofNat n).den ≤ 2 * (n * (F64.ofNat n).den) := Nat.le_mul_of_pos_left _ (by decide)
        _ = 2 * n * (F64.ofNat n).den := by ring
    · exact Nat.le_mul_of_pos_left _ (by decide)
  · have hpos : 0 < n := Nat.lt_of_lt_of_le (by decide) hn
    have hlog : 53 ≤ n.log2 := (Nat.le_log2 (Nat.pos_iff_ne_zero.mp hpos)).mpr hn
    have h2 : 2 ^ n.log2 ≤ n := Nat.log2_self_le (Nat.pos_iff_ne_zero.mp hpos)
    have hsplit : 2 ^ n.log2 = 2 ^ 52 * 2 ^ (n.log2 - 52) := by
      rw [← Nat.pow_add]
      congr 1
      omega
    have hE : 0 < 2 ^ (n.log2 - 52) := Nat.pow_pos (by decide)
    have hdm := Nat.div_add_mod n (2 ^ (n.log2 - 52))
    have hr := Nat.mod_lt n hE
    have hge := roundHalfEven_ge n (2 ^ (n.log2 - 52))
    have hle := roundHalfEven_le_succ n (2 ^ (n.log2 - 52))
    have h1 : n / 2 ^ (n.log2 - 52) * 2 ^ (n.log2 - 52)
        ≤ roundHalfEven n (2 ^ (n.log2 - 52)) * 2 ^ (n.log2 - 52) := Nat.mul_le_mul_right _ hge
    have h3 : roundHalfEven n (2 ^ (n.log2 - 52)) * 2 ^ (n.log2 - 52)
        ≤ (n / 2 ^ (n.log2 - 52) + 1) * 2 ^ (n.log2 - 52) := Nat.mul_le_mul_right _ hle
    have h4 : (n / 2 ^ (n.log2 - 52) + 1) * 2 ^ (n.log2 - 52)
        = n / 2 ^ (n.log2 - 52) * 2 ^ (n.log2 - 52) + 2 ^ (n.log2 - 52) := by ring
    have h5 : 2 ^ (n.log2 - 52) ≤ 2 ^ 52 * 2 ^ (n.log2 - 52) :=
      Nat.le_mul_of_pos_left _ (by decide)
    have h6 : 2 ^ (n.log2 - 52) * (n / 2 ^ (n.log2 - 52))
        = n / 2 ^ (n.log2 - 52) * 2 ^ (n.log2 - 52) := Nat.mul_comm _ _
    rw [F64.ofNat_big n hn]
    dsimp only
    constructor <;> omega

theorem expectedNanos_bounds (w b : Nat) (hb : 0 < b) (hw : w ≤ 2 * b) :
    expectedNanos w b ≤ 8000000000 ∧ (b ≤ w → 1000000000 ≤ expectedNanos w b) := by
  have hxd : 0 < (F64.ofNat w).den := f64Round_den_pos w 1
  have hyd : 0 < (F64.ofNat b).den := f64Round_den_pos b 1
  have hyn : 1 * (F64.ofNat b).den ≤ (F64.ofNat b).num :=
    f64Round_lower b 1 1 Nat.one_pos (by decide) (by omega)
  have hcx := (F64.ofNat_crude w).1
  have hcy := (F64.ofNat_crude b).2
  have ht := F64.ofNat_exact 1000000000 (by decide)
  have htd : 0 < (F64.ofNat 1000000000).den := f64Round_den_pos 1000000000 1
  have hD : 0 < (F64.ofNat w).den * (F64.ofNat b).num :=
    Nat.mul_pos hxd (by omega)
  have hqd : 0 < (F64.div (F64.ofNat w) (F64.ofNat b)).den :=
    f64Round_den_pos ((F64.ofNat w).num * (F64.ofNat b).den)
      ((F64.ofNat w).den * (F64.ofNat b).num)
  have hup1 : (F64.ofNat w).num * (F64.ofNat b).den
      ≤ 8 * ((F64.ofNat w).den * (F64.ofNat b).num) := by
    calc (F64.ofNat w).num * (F64.ofNat b).den
        ≤ 2 * w * (F64.ofNat w).den * (F64.ofNat b).den := Nat.mul_le_mul_right _ hcx
      _ ≤ 2 * (2 * b) * (F64.ofNat w).den * (F64.ofNat b).den :=
          Nat.mul_le_mul_right _ (Nat.mul_le_mul_right _ (Nat.mul_le_mul_left _ hw))
      _ = 4 * (F64.ofNat w).den * (b * (F64.ofNat b).den) := by ring
      _ ≤ 4 * (F64.ofNat w).den * (2 * (F64.ofNat b).num) := Nat.mul_le_mul_left _ hcy
      _ = 8 * ((F64.ofNat w).den * (F64.ofNat b).num) := by ring
  have hq1 := f64Round_upper _ _ 8 hD (by decide) hup1
  have hm1 := f64Round_upper
    ((F64.div (F64.ofNat w) (F64.ofNat b)).num * (F64.ofNat 1000000000).num)
    ((F64.div (F64.ofNat w) (F64.ofNat b)).den * (F64.ofNat 1000000000).den) 8000000000
    (Nat.mul_pos hqd htd) (by decide)
    (by
      rw [ht]
      calc (F64.div (F64.ofNat w) (F64.ofNat b)).num * (1000000000 * (F64.ofNat 1000000000).den)
          ≤ 8 * (F64.div (F64.ofNat w) (F64.ofNat b)).den
              * (1000000000 * (F64.ofNat 1000000000).den) := Nat.mul_le_mul_right _ hq1
        _ = 8000000000 * ((F64.div (F64.ofNat w) (F64.ofNat b)).den
              * (F64.ofNat 1000000000).den) := by ring)
  have hmd := f64Round_den_pos
    ((F64.div (F64.ofNat w) (F64.ofNat b)).num * (F64.ofNat 1000000000).num)
    ((F64.div (F64.ofNat w) (F64.ofNat b)).den * (F64.ofNat 1000000000).den)
  refine ⟨?_, fun hbw => ?_⟩
  · unfold expectedNanos F64.trunc
    exact Nat.div_le_of_le_mul (by rw [Nat.mul_comm]; exact hm1)
  · have hlo1 : 1 * ((F64.ofNat w).den * (F64.ofNat b).num)
        ≤ (F64.ofNat w).num * (F64.ofNat b).den := by
      rw [Nat.one_mul, Nat.mul_comm]
      exact F64.ofNat_mono b w hbw
    have hq2 := f64Round_lower _ _ 1 hD (by decide) hlo1
    have hm2 := f64Round_lower
      ((F64.div (F64.ofNat w) (F64.ofNat b)).num * (F64.ofNat 1000000000).num)
      ((F64.div (F64.ofNat w) (F64.ofNat b)).den * (F64.ofNat 1000000000).den) 1000000000
      (Nat.mul_pos hqd htd) (by decide)
      (by
        rw [ht]
        calc 1000000000 * ((F64.div (F64.ofNat w) (F64.ofNat b)).den
              * (F64.ofNat 1000000000).den)
            = 1 * (F64.div (F64.ofNat w) (F64.ofNat b)).den
                * (1000000000 * (F64.ofNat 1000000000).den) := by ring
          _ ≤ (F64.div (F64.ofNat w) (F64.ofNat b)).num
                * (1000000000 * (F64.ofNat 1000000000).den) := Nat.mul_le_mul_right _ hq2)
    unfold expectedNanos F64.trunc
    exact (Nat.le_div_iff_mul_le hmd).mpr hm2

theorem expectedDuration_eq (w b : Nat) (hb : 0 < b) (hw : w ≤ 2 * b) :
    expectedDuration w b = (expectedNanos w b : Int) := by
  have h := (expectedNanos_bounds w b hb hw).1
  unfold expectedDuration
  rw [if_neg (by omega)]
  simp only [Int.natAbs_ofNat]
  have h1 : decide ((w : Int) < 0) = false := by
    apply decide_eq_false
    omega
  have h2 : decide ((b : Int) < 0) = false := by
    apply decide_eq_false
    omega
  rw [h1, h2]
  have h3 : (false != false) = false := rfl
  simp only [h3, Bool.false_eq_true, if_false]
  unfold expectedNanos at h
  unfold expectedNanos minInt64 maxInt64
  rw [if_pos (by omega)]

theorem roundHalfEven_near (a d : Nat) (hd : 0 < d) :
    2 * (roundHalfEven a d * d) ≤ 2 * a + d ∧ 2 * a ≤ 2 * (roundHalfEven a d * d) + d := by
  have hdm := Nat.div_add_mod a d
  have hr := Nat.mod_lt a hd
  have hs : (a / d + 1) * d = d * (a / d) + d := by ring
  have hc : a / d * d = d * (a / d) := Nat.mul_comm _ _
  unfold roundHalfEven
  dsimp only
  split
  · rw [hc]; omega
  · split
    · rw [hs]; omega
    · split
      · rw [hc]; omega
      · rw [hs]; omega

theorem floorLog2Ratio_scaled (num den : Nat) (hnum : 0 < num)
    (hlt : floorLog2Ratio num den < 52) :
    den * 2 ^ 52 ≤ num * 2 ^ (-(floorLog2Ratio num den - 52)).toNat := by
  have h1 : 2 ^ num.log2 ≤ num := Nat.log2_self_le (Nat.pos_iff_ne_zero.mp hnum)
  have h2 : den < 2 ^ (den.log2 + 1) := Nat.lt_log2_self
  unfold floorLog2Ratio at hlt ⊢
  rw [floorLog2_eq, floorLog2_eq] at hlt ⊢
  dsimp only at hlt ⊢
  split at hlt
  · rename_i hc
    rw [if_pos hc]
    rcases Nat.lt_or_ge num.log2 den.log2 with hneg | hpos
    · have e1 : ((num.log2 : Int) - (den.log2 : Int)).toNat = 0 := by omega
      have e2 : (-((num.log2 : Int) - (den.log2 : Int))).toNat = den.log2 - num.log2 := by omega
      have e3 : (-((num.log2 : Int) - (den.log2 : Int) - 52)).toNat
          = (den.log2 - num.log2) + 52 := by omega
      rw [e1, e2, Nat.pow_zero, Nat.mul_one] at hc
      rw [e3, Nat.pow_add]
      calc den * 2 ^ 52 ≤ num * 2 ^ (den.log2 - num.log2) * 2 ^ 52 := Nat.mul_le_mul_right _ hc
        _ = num * (2 ^ (den.log2 - num.log2) * 2 ^ 52) := by ring
    · have e1 : ((num.log2 : Int) - (den.log2 : Int)).toNat = num.log2 - den.log2 := by omega
      have e2 : (-((num.log2 : Int) - (den.log2 : Int))).toNat = 0 := by omega
      have e3 : (-((num.log2 : Int) - (den.log2 : Int) - 52)).toNat
          = 52 - (num.log2 - den.log2) := by omega
      have e4 : 52 = (num.log2 - den.log2) + (52 - (num.log2 - den.log2)) := by omega
      rw [e1, e2, Nat.pow_zero, Nat.mul_one] at hc
      rw [e3]
      calc den * 2 ^ 52
          = den * 2 ^ ((num.log2 - den.log2) + (52 - (num.log2 - den.log2))) := by rw [← e4]
        _ = den * 2 ^ (num.log2 - den.log2) * 2 ^ (52 - (num.log2 - den.log2)) := by
            rw [Nat.pow_add]; ring
        _ ≤ num * 2 ^ (52 - (num.log2 - den.log2)) := Nat.mul_le_mul_right _ hc
  · rename_i hc
    rw [if_neg hc]
    have e3 : (-((num.log2 : Int) - (den.log2 : Int) - 1 - 52)).toNat
        = den.log2 + 53 - num.log2 := by omega
    have e4 : num.log2 + (den.log2 + 53 - num.log2) = (den.log2 + 1) + 52 := by omega
    rw [e3]
    have h3 : den * 2 ^ 52 ≤ 2 ^ (den.log2 + 1) * 2 ^ 52 :=
      Nat.mul_le_mul_right _ (Nat.le_of_lt h2)
    calc den * 2 ^ 52 ≤ 2 ^ (den.log2 + 1) * 2 ^ 52 := h3
      _ = 2 ^ (num.log2 + (den.log2 + 53 - num.log2)) := by rw [e4, ← Nat.pow_add]
      _ = 2 ^ num.log2 * 2 ^ (den.log2 + 53 - num.log2) := Nat.pow_add _ _ _
      _ ≤ num * 2 ^ (den.log2 + 53 - num.log2) := Nat.mul_le_mul_right _ h1

/-- Rounding a ratio below `2 ^ 52` changes it by at most one part in
`2 ^ 53`. -/
theorem f64Round_near (num den : Nat) (hnum : 0 < num) (hden : 0 < den)
    (hlt : num < den * 2 ^ 52) :
    (f64Round num den).num * den * 2 ^ 53 ≤ num * (f64Round num den).den * (2 ^ 53 + 1)
      ∧ num * (f64Round num den).den * (2 ^ 53 - 1)
        ≤ (f64Round num den).num * den * 2 ^ 53 := by
  have hfl : floorLog2Ratio num den < 52 := by
    by_contra h
    have := floorLog2Ratio_le num den 52 hnum (by omega)
    omega
  have hs := floorLog2Ratio_scaled num den hnum hfl
  have hr := roundHalfEven_near (num * 2 ^ (-(floorLog2Ratio num den - 52)).toNat) den hden
  unfold f64Round
  dsimp only
  rw [if_neg (by omega), if_neg (by omega)]
  dsimp only
  generalize roundHalfEven (num * 2 ^ (-(floorLog2Ratio num den - 52)).toNat) den * den = rd
    at hr ⊢
  generalize num * 2 ^ (-(floorLog2Ratio num den - 52)).toNat = m at hr hs ⊢
  constructor <;> omega

theorem f64Round_rel (num den : Nat) (hnum : 0 < num) (hden : 0 < den)
    (hlt : num < den * 2 ^ 52) :
    ((f64Round num den).num : ℚ) / (f64Round num den).den
        ≤ (num : ℚ) / den * (1 + 1 / 2 ^ 53)
      ∧ (num : ℚ) / den * (1 - 1 / 2 ^ 53)
        ≤ ((f64Round num den).num : ℚ) / (f64Round num den).den := by
  obtain ⟨h1, h2⟩ := f64Round_near num den hnum hden hlt
  have hrd : (0 : ℚ) < (f64Round num den).den := by
    exact_mod_cast f64Round_den_pos num den
  have hd : (0 : ℚ) < den := by exact_mod_cast hden
  have k1 : ((f64Round num den).num : ℚ) * den * 2 ^ 53
      ≤ num * (f64Round num den).den * (2 ^ 53 + 1) := by exact_mod_cast h1
  have k2 : (num : ℚ) * (f64Round num den).den * (2 ^ 53 - 1)
      ≤ (f64Round num den).num * den * 2 ^ 53 := by
    have : ((2 ^ 53 - 1 : Nat) : ℚ) = 2 ^ 53 - 1 := by norm_num
    rw [← this]
    exact_mod_cast h2
  constructor
  · rw [div_le_iff₀ hrd, ← sub_nonneg]
    have e : (num : ℚ) / den * (1 + 1 / 2 ^ 53) * (f64Round num den).den
        - (f64Round num den).num
        = (num * (f64Round num den).den * (2 ^ 53 + 1)
            - (f64Round num den).num * den * 2 ^ 53) / (den * 2 ^ 53) := by
      field_simp
      ring
    rw [e]
    apply div_nonneg
    · linarith
    · positivity
  · rw [le_div_iff₀ hrd, ← sub_nonneg]
    have e : ((f64Round num den).num : ℚ)
        - (num : ℚ) / den * (1 - 1 / 2 ^ 53) * (f64Round num den).den
        = ((f64Round num den).num * den * 2 ^ 53
            - num * (f64Round num den).den * (2 ^ 53 - 1)) / (den * 2 ^ 53) := by
      field_simp
      ring
    rw [e]
    apply div_nonneg
    · linarith
    · positivity

/-- The expected duration of `w` bytes at `b` bytes per second is the exact
quotient `w * (10 ^ 9 / b)` cut to whole nanoseconds, up to `2 ^ (-20)` ns of
rounding. -/
theorem expectedNanos_near (w b : Nat) (hw0 : 0 < w) (hb1 : 125000 ≤ b) (hb2 : b < 2 ^ 52)
    (hw : w ≤ b + 32768) :
    ((expectedNanos w b : Nat) : ℚ) ≤ (w : ℚ) * (1000000000 / b) + 1 / 2 ^ 20
      ∧ (w : ℚ) * (1000000000 / b) < ((expectedNanos w b : Nat) : ℚ) + 1 + 1 / 2 ^ 20 := by
  have hbpos : 0 < b := by omega
  have hxd : 0 < (F64.ofNat w).den := f64Round_den_pos w 1
  have hyd : 0 < (F64.ofNat b).den := f64Round_den_pos b 1
  have htd : 0 < (F64.ofNat 1000000000).den := f64Round_den_pos 1000000000 1
  have hx := F64.ofNat_exact w (by omega)
  have hy := F64.ofNat_exact b (by omega)
  have ht := F64.ofNat_exact 1000000000 (by decide)
  have hbq : (0 : ℚ) < b := by exact_mod_cast hbpos
  have hwq : (0 : ℚ) < w := by exact_mod_cast hw0
  have hxdq : (0 : ℚ) < (F64.ofNat w).den := by exact_mod_cast hxd
  have hydq : (0 : ℚ) < (F64.ofNat b).den := by exact_mod_cast hyd
  have htdq : (0 : ℚ) < (F64.ofNat 1000000000).den := by exact_mod_cast htd
  have hxq : ((F64.ofNat w).num : ℚ) = w * (F64.ofNat w).den := by exact_mod_cast hx
  have hyq : ((F64.ofNat b).num : ℚ) = b * (F64.ofNat b).den := by exact_mod_cast hy
  have htq : ((F64.ofNat 1000000000).num : ℚ) = 1000000000 * (F64.ofNat 1000000000).den := by
    exact_mod_cast ht
  -- the quotient
  have hN : 0 < (F64.ofNat w).num * (F64.ofNat b).den := by
    rw [hx]
    exact Nat.mul_pos (Nat.mul_pos hw0 hxd) hyd
  have hD : 0 < (F64.ofNat w).den * (F64.ofNat b).num := by
    rw [hy]
    exact Nat.mul_pos hxd (Nat.mul_pos hbpos hyd)
  have hlt1 : (F64.ofNat w).num * (F64.ofNat b).den
      < (F64.ofNat w).den * (F64.ofNat b).num * 2 ^ 52 := by
    rw [hx, hy]
    have h2 : w < b * 2 ^ 52 := by omega
    have hP : 0 < (F64.ofNat w).den * (F64.ofNat b).den := Nat.mul_pos hxd hyd
    calc w * (F64.ofNat w).den * (F64.ofNat b).den
        = w * ((F64.ofNat w).den * (F64.ofNat b).den) := by ring
      _ < b * 2 ^ 52 * ((F64.ofNat w).den * (F64.ofNat b).den) :=
          Nat.mul_lt_mul_of_pos_right h2 hP
      _ = (F64.ofNat w).den * (b * (F64.ofNat b).den) * 2 ^ 52 := by ring
  obtain ⟨q1, q2⟩ := f64Round_rel _ _ hN hD hlt1
  have hqd : 0 < (F64.div (F64.ofNat w) (F64.ofNat b)).den :=
    f64Round_den_pos ((F64.ofNat w).num * (F64.ofNat b).den)
      ((F64.ofNat w).den * (F64.ofNat b).num)
  have hqdq : (0 : ℚ) < (F64.div (F64.ofNat w) (F64.ofNat b)).den := by exact_mod_cast hqd
  have hratio : (((F64.ofNat w).num * (F64.ofNat b).den : Nat) : ℚ)
      / (((F64.ofNat w).den * (F64.ofNat b).num : Nat) : ℚ) = (w : ℚ) / b := by
    push_cast
    rw [hxq, hyq]
    field_simp
    ring
  rw [hratio] at q1 q2
  change ((F64.div (F64.ofNat w) (F64.ofNat b)).num : ℚ)
      / (F64.div (F64.ofNat w) (F64.ofNat b)).den ≤ _ at q1
  change _ ≤ ((F64.div (F64.ofNat w) (F64.ofNat b)).num : ℚ)
      / (F64.div (F64.ofNat w) (F64.ofNat b)).den at q2
  -- bounds on the exact quotient
  have hwb : (w : ℚ) / b ≤ 2 := by
    rw [div_le_iff₀ hbq]
    have : (w : ℚ) ≤ b + 32768 := by exact_mod_cast hw
    have : (125000 : ℚ) ≤ b := by exact_mod_cast hb1
    linarith
  have hwb0 : (0 : ℚ) < (w : ℚ) / b := div_pos hwq hbq
  generalize hq : F64.div (F64.ofNat w) (F64.ofNat b) = q at q1 q2 hqd hqdq
  have hqpos : (0 : ℚ) < (q.num : ℚ) / q.den := by
    have : (0 : ℚ) < (w : ℚ) / b * (1 - 1 / 2 ^ 53) := mul_pos hwb0 (by norm_num)
    linarith
  have hqn : 0 < q.num := by
    rcases Nat.eq_zero_or_pos q.num with h0 | h0
    · rw [h0] at hqpos
      simp at hqpos
    · exact h0
  have hqle : (q.num : ℚ) / q.den ≤ 4 := by
    have : (w : ℚ) / b * (1 + 1 / 2 ^ 53) ≤ 2 * (1 + 1 / 2 ^ 53) :=
      mul_le_mul_of_nonneg_right hwb (by norm_num)
    have : (2 : ℚ) * (1 + 1 / 2 ^ 53) ≤ 4 := by norm_num
    linarith
  have hqle2 : q.num ≤ 4 * q.den := by
    rw [div_le_iff₀ hqdq] at hqle
    exact_mod_cast hqle
  -- the product
  have hN2 : 0 < q.num * (F64.ofNat 1000000000).num := by
    rw [ht]
    exact Nat.mul_pos hqn (Nat.mul_pos (by decide) htd)
  have hD2 : 0 < q.den * (F64.ofNat 1000000000).den := Nat.mul_pos hqd htd
  have hlt2 : q.num * (F64.ofNat 1000000000).num
      < q.den * (F64.ofNat 1000000000).den * 2 ^ 52 := by
    rw [ht]
    calc q.num * (1000000000 * (F64.ofNat 1000000000).den)
        ≤ 4 * q.den * (1000000000 * (F64.ofNat 1000000000).den) :=
          Nat.mul_le_mul_right _ hqle2
      _ = q.den * (F64.ofNat 1000000000).den * 4000000000 := by ring
      _ < q.den * (F64.ofNat 1000000000).den * 2 ^ 52 :=
          Nat.mul_lt_mul_of_pos_left (by decide) hD2
  obtain ⟨p1, p2⟩ := f64Round_rel _ _ hN2 hD2 hlt2
  have hratio2 : ((q.num * (F64.ofNat 1000000000).num : Nat) : ℚ)
      / ((q.den * (F64.ofNat 1000000000).den : Nat) : ℚ)
        = (q.num : ℚ) / q.den * 1000000000 := by
    push_cast
    rw [htq]
    field_simp
    ring
  rw [hratio2] at p1 p2
  have hpd : 0 < (F64.mul q (F64.ofNat 1000000000)).den :=
    f64Round_den_pos (q.num * (F64.ofNat 1000000000).num) (q.den * (F64.ofNat 1000000000).den)
  have hpdq : (0 : ℚ) < (F64.mul q (F64.ofNat 1000000000)).den := by exact_mod_cast hpd
  change ((F64.mul q (F64.ofNat 1000000000)).num : ℚ)
      / (F64.mul q (F64.ofNat 1000000000)).den ≤ _ at p1
  change _ ≤ ((F64.mul q (F64.ofNat 1000000000)).num : ℚ)
      / (F64.mul q (F64.ofNat 1000000000)).den at p2
  -- the integer part
  have hE : expectedNanos w b
      = (F64.mul q (F64.ofNat 1000000000)).num / (F64.mul q (F64.ofNat 1000000000)).den := by
    unfold expectedNanos F64.trunc
    rw [hq]
  generalize F64.mul q (F64.ofNat 1000000000) = p at p1 p2 hpd hpdq hE
  have hfl1 : ((expectedNanos w b : Nat) : ℚ) ≤ (p.num : ℚ) / p.den := by
    rw [le_div_iff₀ hpdq, hE]
    exact_mod_cast Nat.div_mul_le_self p.num p.den
  have hfl2 : (p.num : ℚ) / p.den < ((expectedNanos w b : Nat) : ℚ) + 1 := by
    rw [div_lt_iff₀ hpdq, hE]
    have := Nat.lt_div_mul_add hpd (a := p.num)
    have h3 : p.num < (p.num / p.den + 1) * p.den := by
      rw [Nat.add_mul, Nat.one_mul]
      exact this
    exact_mod_cast h3
  have hX : (w : ℚ) * (1000000000 / b) = (w : ℚ) / b * 1000000000 := by ring
  rw [hX]
  generalize (w : ℚ) / b = x at q1 q2 hwb hwb0
  generalize (q.num : ℚ) / q.den = vq at q1 q2 p1 p2
  generalize (p.num : ℚ) / p.den = vp at p1 p2 hfl1 hfl2
  generalize ((expectedNanos w b : Nat) : ℚ) = e at hfl1 hfl2
  have hu : (0 : ℚ) ≤ 1 + 1 / 2 ^ 53 := by norm_num
  have hu2 : (0 : ℚ) ≤ 1 - 1 / 2 ^ 53 := by norm_num
  have s1 := mul_le_mul_of_nonneg_right q1 (by norm_num : (0 : ℚ) ≤ 1000000000 * (1 + 1 / 2 ^ 53))
  have s2 := mul_le_mul_of_nonneg_right q2 (by norm_num : (0 : ℚ) ≤ 1000000000 * (1 - 1 / 2 ^ 53))
  constructor
  · linarith
  · linarith

/-! ## Pacing of the read loop -/

theorem chunkSum_cons (e : ReadEvent) (reads : List ReadEvent) :
    chunkSum (e :: reads) = e.n + chunkSum reads := by
  simp [chunkSum]

theorem windowTotal_append (reads : List ReadEvent) (e : ReadEvent) (w : Nat) :
    windowTotal (reads ++ [e]) w
      = windowTotal reads w + (if e.windowStart = w then e.n else 0) := by
  unfold windowTotal
  rw [List.filter_append]
  by_cases h : e.windowStart = w
  · have hb : (e.windowStart == w) = true := by simpa using h
    simp [List.filter_cons, hb, h, chunkSum]
  · have hb : (e.windowStart == w) = false := by simpa using h
    simp [List.filter_cons, hb, h, chunkSum]

theorem windowTotal_eq_zero (reads : List ReadEvent) (w : Nat)
    (h : ∀ e ∈ reads, e.windowStart ≠ w) : windowTotal reads w = 0 := by
  unfold windowTotal
  have : reads.filter (fun e => e.windowStart == w) = [] := by
    rw [List.filter_eq_nil_iff]
    intro e he
    simpa using h e he
  rw [this]
  rfl

theorem account_cases (bytesPerSec : Int) (s : Fetch) (n : Nat) :
    (account bytesPerSec s n).reads
        = s.reads ++ [{ time := s.now, n := n, windowStart := s.windowStart }]
      ∧ s.now ≤ (account bytesPerSec s n).now
      ∧ expectedDuration (toInt64 (s.windowBytes + n)) bytesPerSec
          ≤ ((account bytesPerSec s n).now : Int) - s.windowStart
      ∧ ((1000000000 ≤ ((account bytesPerSec s n).now : Int) - s.windowStart
            ∧ (account bytesPerSec s n).windowBytes = 0
            ∧ (account bytesPerSec s n).windowStart = (account bytesPerSec s n).now)
          ∨ (((account bytesPerSec s n).now : Int) - s.windowStart < 1000000000
            ∧ (account bytesPerSec s n).windowBytes = toInt64 (s.windowBytes + n)
            ∧ (account bytesPerSec s n).windowStart = s.windowStart)) := by
  unfold account
  dsimp only
  generalize expectedDuration (toInt64 (s.windowBytes + n)) bytesPerSec = ex
  refine ⟨rfl, ?_, ?_, ?_⟩
  · split <;> omega
  · split <;> omega
  · by_cases hr : (1000000000 : Int)
        ≤ ((if ex > (s.now : Int) - s.windowStart then
              s.now + (ex - ((s.now : Int) - s.windowStart)).toNat else s.now : Nat) : Int)
          - s.windowStart
    · left
      refine ⟨hr, ?_, ?_⟩
      · rw [if_pos (by simpa using hr)]
      · rw [if_pos (by simpa using hr)]
    · right
      refine ⟨by omega, ?_, ?_⟩
      · rw [if_neg (by simpa using hr)]
      · rw [if_neg (by simpa using hr)]

theorem paced_account (b : Nat) (s : Fetch) (n : Nat) (hp : Paced b s) (hn : n ≤ 32768)
    (hb1 : 32768 ≤ b) (hb2 : b < 2 ^ 60) : Paced b (account (b : Int) s n) := by
  obtain ⟨hreads, hnow, hexp, hcase⟩ := account_cases (b : Int) s n
  have hbelow := hp.below
  have hclock := hp.clock
  have hW : toInt64 (s.windowBytes + n)
      = ((windowTotal s.reads s.windowStart + n : Nat) : Int) := by
    rw [hp.window]
    push_cast
    exact toInt64_of_range _ (by omega) (by omega)
  have hE := expectedDuration_eq (windowTotal s.reads s.windowStart + n) b (by omega) (by omega)
  have hbounds := expectedNanos_bounds (windowTotal s.reads s.windowStart + n) b (by omega)
    (by omega)
  rw [hW, hE] at hexp
  have hwt : ∀ w : Nat, windowTotal (account (b : Int) s n).reads w
      = windowTotal s.reads w + (if s.windowStart = w then n else 0) := by
    intro w
    rw [hreads, windowTotal_append]
  have hmem : ∀ e ∈ (account (b : Int) s n).reads,
      e ∈ s.reads ∨ (e.time = s.now ∧ e.windowStart = s.windowStart) := by
    intro e he
    rw [hreads] at he
    rcases List.mem_append.mp he with h | h
    · exact Or.inl h
    · right
      rw [List.mem_singleton.mp h]
      exact ⟨rfl, rfl⟩
  have hold : ∀ e ∈ s.reads, e.windowStart ≤ s.windowStart := by
    intro e he
    have := (hp.past e he).2.2
    omega
  have htotal : ∀ w : Nat, windowTotal (account (b : Int) s n).reads w < b + 32768 := by
    intro w
    rw [hwt w]
    have := hp.total w
    split
    · rename_i hw
      rw [← hw]
      omega
    · omega
  have hapart : ∀ e1 ∈ (account (b : Int) s n).reads, ∀ e2 ∈ (account (b : Int) s n).reads,
      e1.windowStart < e2.windowStart →
        e1.windowStart + 1000000000 ≤ e2.windowStart ∧ e1.time ≤ e2.windowStart := by
    intro e1 h1 e2 h2 hlt
    rcases hmem e1 h1 with o1 | n1
    · rcases hmem e2 h2 with o2 | n2
      · exact hp.apart e1 o1 e2 o2 hlt
      · have := (hp.past e1 o1).2.2
        omega
    · rcases hmem e2 h2 with o2 | n2
      · have := hold e2 o2
        omega
      · omega
  rcases hcase with ⟨hr, hwb, hws⟩ | ⟨hr, hwb, hws⟩
  · have hzero : windowTotal (account (b : Int) s n).reads (account (b : Int) s n).now = 0 := by
      apply windowTotal_eq_zero
      intro e he
      rcases hmem e he with o | nw
      · have := hold e o
        omega
      · omega
    refine ⟨?_, ?_, ?_, ?_, hapart, htotal⟩
    · rw [hws]
    · rw [hwb, hws, hzero]
      rfl
    · rw [hws, hzero]
      omega
    · intro e he
      rw [hws]
      rcases hmem e he with o | nw
      · have h1 := hp.past e o
        have h2 := hold e o
        refine ⟨h1.1, by omega, Or.inr ⟨by omega, by omega⟩⟩
      · refine ⟨by omega, by omega, Or.inr ⟨by omega, by omega⟩⟩
  · have hsame : windowTotal (account (b : Int) s n).reads s.windowStart
        = windowTotal s.reads s.windowStart + n := by
      rw [hwt, if_pos rfl]
    refine ⟨?_, ?_, ?_, ?_, hapart, htotal⟩
    · rw [hws]
      omega
    · rw [hwb, hws, hsame, hW]
    · rw [hws, hsame]
      by_contra hge
      have := hbounds.2 (by omega)
      omega
    · intro e he
      rw [hws]
      rcases hmem e he with o | nw
      · have h1 := hp.past e o
        refine ⟨h1.1, by omega, h1.2.2⟩
      · exact ⟨by omega, by omega, Or.inl nw.2⟩

theorem account_now (bytesPerSec : Int) (s : Fetch) (n : Nat) :
    (account bytesPerSec s n).now = s.now
      ∨ ((account bytesPerSec s n).now : Int) - s.windowStart
          = expectedDuration (toInt64 (s.windowBytes + n)) bytesPerSec := by
  unfold account
  dsimp only
  generalize expectedDuration (toInt64 (s.windowBytes + n)) bytesPerSec = ex
  split
  · right
    omega
  · left
    rfl

theorem bytesWithin_append (reads : List ReadEvent) (e : ReadEvent) (a : Nat) :
    bytesWithin (reads ++ [e]) a
      = bytesWithin reads a + (if a ≤ e.time ∧ e.time < a + 1000000000 then e.n else 0) := by
  unfold bytesWithin
  rw [List.filter_append]
  by_cases h : a ≤ e.time ∧ e.time < a + 1000000000
  · have hb : (decide (a ≤ e.time) && decide (e.time < a + 1000000000)) = true := by
      simpa using h
    simp [List.filter_cons, hb, h, chunkSum]
  · have hb : (decide (a ≤ e.time) && decide (e.time < a + 1000000000)) = false := by
      simpa using h
    simp only [List.filter_cons, hb, if_neg h, List.filter_nil, List.append_nil]
    simp

theorem steady_account (b a : Nat) (s : Fetch) (n : Nat) (hp : Paced b s)
    (hs : Steady b a s) (hn0 : 0 < n) (hn : n ≤ 32768) (hb1 : 125000 ≤ b)
    (hb2 : b < 2 ^ 52) : Steady b a (account (b : Int) s n) := by
  obtain ⟨hreads, hnow, hexp, hcase⟩ := account_cases (b : Int) s n
  have hnowc := account_now (b : Int) s n
  have hbelow := hp.below
  have hW : toInt64 (s.windowBytes + n)
      = ((windowTotal s.reads s.windowStart + n : Nat) : Int) := by
    rw [hp.window]
    push_cast
    exact toInt64_of_range _ (by omega) (by omega)
  have hE := expectedDuration_eq (windowTotal s.reads s.windowStart + n) b (by omega) (by omega)
  obtain ⟨f1, f2⟩ := expectedNanos_near (windowTotal s.reads s.windowStart + n) b (by omega)
    hb1 hb2 (by omega)
  rw [hW, hE] at hexp hnowc
  have hS : bytesWithin (account (b : Int) s n).reads a
      = bytesWithin s.reads a
        + (if a ≤ s.now ∧ s.now < a + 1000000000 then n else 0) := by
    rw [hreads, bytesWithin_append]
  obtain ⟨sp, sc, hsum, hsc, hP, hA, hB⟩ := hs.parts
  have hlow := hs.lower
  have hupp := hs.upper
  have hbound := hs.bound
  have hearly := hs.early
  rw [hp.window] at hlow hupp hsc hA
  have hscn : sc ≤ windowTotal s.reads s.windowStart := by exact_mod_cast hsc
  -- the rate as nanoseconds per byte
  have hbq : (0 : ℚ) < b := by
    have : 0 < b := by omega
    exact_mod_cast this
  have hc0 : (0 : ℚ) < 1000000000 / b := div_pos (by norm_num) hbq
  have hcb : (b : ℚ) * (1000000000 / b) = 1000000000 := by
    field_simp
  -- facts in ℚ
  have q1 : (s.now : ℚ) ≤ (account (b : Int) s n).now := by exact_mod_cast hnow
  have q2 : ((expectedNanos (windowTotal s.reads s.windowStart + n) b : Nat) : ℚ)
      ≤ ((account (b : Int) s n).now : ℚ) - s.windowStart := by exact_mod_cast hexp
  have q3 : ((account (b : Int) s n).now : ℚ) = s.now
      ∨ ((account (b : Int) s n).now : ℚ) - s.windowStart
        = ((expectedNanos (windowTotal s.reads s.windowStart + n) b : Nat) : ℚ) := by
    rcases hnowc with h | h
    · left
      rw [h]
    · right
      exact_mod_cast h
  have q4 : ((windowTotal s.reads s.windowStart + n : Nat) : ℚ)
      = (windowTotal s.reads s.windowStart : ℚ) + n := by push_cast; rfl
  rw [q4] at f1 f2
  have q5 : (sc : ℚ) ≤ (windowTotal s.reads s.windowStart : ℚ) := by exact_mod_cast hscn
  have q6 : (windowTotal s.reads s.windowStart : ℚ) + 1 ≤ b := by exact_mod_cast hbelow
  have q7 : (n : ℚ) ≤ 32768 := by exact_mod_cast hn
  have q8 : (0 : ℚ) ≤ n := by exact_mod_cast (Nat.zero_le n)
  have q9 : (0 : ℚ) ≤ sc := by exact_mod_cast (Nat.zero_le sc)
  have q10 : (bytesWithin s.reads a : ℚ) = sp + sc := by exact_mod_cast hsum
  simp only [Int.cast_natCast] at hlow hupp hA
  -- products with the rate
  have m1 := mul_le_mul_of_nonneg_right q5 (le_of_lt hc0)
  have m2 := mul_le_mul_of_nonneg_right q6 (le_of_lt hc0)
  have m3 := mul_le_mul_of_nonneg_right q7 (le_of_lt hc0)
  have m4 := mul_nonneg q8 (le_of_lt hc0)
  have m5 := mul_nonneg q9 (le_of_lt hc0)
  -- the intermediate facts, before the window is reset or kept
  have hlow1 : ((windowTotal s.reads s.windowStart : ℚ) + n) * (1000000000 / b)
      ≤ ((account (b : Int) s n).now : ℚ) - s.windowStart + (1 + 1 / 2 ^ 20) := by
    linarith
  have hupp1 : ((account (b : Int) s n).now : ℚ) - s.windowStart
      ≤ ((windowTotal s.reads s.windowStart : ℚ) + n) * (1000000000 / b) + 1 / 2 ^ 20 := by
    rcases q3 with h | h
    · rw [h]
      linarith
    · rw [h]
      exact f1
  have hearly1 : (account (b : Int) s n).now < a →
      bytesWithin (account (b : Int) s n).reads a = 0 := by
    intro h
    rw [hS, if_neg (by omega), hearly (by omega)]
  -- the bytes of the second, with those of the new chunk
  have hadd : (if a ≤ s.now ∧ s.now < a + 1000000000 then n else 0) ≤ n := by
    split <;> omega
  have hA1 : (account (b : Int) s n).now < a + 1000000000 → a ≤ (account (b : Int) s n).now →
      (a : ℚ) - s.windowStart
        ≤ ((windowTotal s.reads s.windowStart : ℚ) + n
            - ((sc + (if a ≤ s.now ∧ s.now < a + 1000000000 then n else 0) : Nat) : ℚ))
          * (1000000000 / b) + 1 / 2 ^ 20 := by
    intro h1 h2
    by_cases hin : a ≤ s.now ∧ s.now < a + 1000000000
    · rw [if_pos hin]
      have := hA hin.2 hin.1
      push_cast
      linarith
    · rw [if_neg hin]
      have hlt : s.now < a := by omega
      have h0 := hearly hlt
      have hsc0 : sc = 0 := by omega
      have h2q : (a : ℚ) ≤ (account (b : Int) s n).now := by exact_mod_cast h2
      rw [hsc0]
      push_cast
      linarith
  have hbound1 : (bytesWithin (account (b : Int) s n).reads a : ℚ) * (1000000000 / b)
      ≤ 1000000000 + 32768 * (1000000000 / b) + (1 + 3 / 2 ^ 20) := by
    rw [hS]
    by_cases hin : a ≤ s.now ∧ s.now < a + 1000000000
    · rw [if_pos hin]
      push_cast
      rw [q10]
      have hnq : (s.now : ℚ) + 1 ≤ a + 1000000000 := by exact_mod_cast hin.2
      rcases Nat.eq_zero_or_pos sp with h0 | hpos
      · rw [h0]
        push_cast
        linarith
      · have := hB hin.2 hpos
        linarith
    · rw [if_neg hin]
      simpa using hbound
  rcases hcase with ⟨hr, hwb, hws⟩ | ⟨hr, hwb, hws⟩
  · -- a new window starts
    have hrq : (1000000000 : ℚ) ≤ ((account (b : Int) s n).now : ℚ) - s.windowStart := by
      exact_mod_cast hr
    refine ⟨?_, ?_, hearly1, ?_, hbound1⟩
    · rw [hwb, hws]
      norm_num
    · rw [hwb, hws]
      norm_num
    · refine ⟨bytesWithin (account (b : Int) s n).reads a, 0, rfl, ?_, ?_, ?_, ?_⟩
      · rw [hwb]
        rfl
      · intro hpos
        rw [hws]
        by_contra hlt
        have := hearly1 (by omega)
        omega
      · intro h1 h2
        rw [hwb, hws]
        have h2q : (a : ℚ) ≤ (account (b : Int) s n).now := by exact_mod_cast h2
        norm_num
        linarith
      · intro h1 hpos
        rw [hws]
        have hws_lt : s.windowStart < a := by omega
        have hsp0 : sp = 0 := by
          rcases Nat.eq_zero_or_pos sp with h0 | h0
          · exact h0
          · have := hP h0
            omega
        have h2 : a ≤ (account (b : Int) s n).now := by
          by_contra hlt
          have := hearly1 (by omega)
          omega
        have hA2 := hA1 h1 h2
        have hSq : (bytesWithin (account (b : Int) s n).reads a : ℚ)
            = ((sc + (if a ≤ s.now ∧ s.now < a + 1000000000 then n else 0) : Nat) : ℚ) := by
          rw [hS, hsum, hsp0]
          push_cast
          ring
        rw [hSq]
        linarith
  · -- the window goes on
    refine ⟨?_, ?_, hearly1, ?_, hbound1⟩
    · rw [hwb, hws, hW]
      push_cast
      exact hlow1
    · rw [hwb, hws, hW]
      push_cast
      exact hupp1
    · refine ⟨sp, sc + (if a ≤ s.now ∧ s.now < a + 1000000000 then n else 0), ?_, ?_, ?_, ?_,
        ?_⟩
      · rw [hS, hsum]
        omega
      · rw [hwb, hW]
        push_cast
        have : ((if a ≤ s.now ∧ s.now < a + 1000000000 then n else 0 : Nat) : Int) ≤ n := by
          exact_mod_cast hadd
        have : (sc : Int) ≤ windowTotal s.reads s.windowStart := by exact_mod_cast hscn
        omega
      · rw [hws]
        exact hP
      · intro h1 h2
        rw [hwb, hws, hW]
        have := hA1 h1 h2
        push_cast at this ⊢
        exact this
      · intro h1 hpos
        rw [hws]
        exact hB (by omega) hpos

theorem paced_readChunk (b : Nat) (s : Fetch) (r : ReadStep) (hp : Paced b s)
    (hn : r.n ≤ 32768) (hb1 : 32768 ≤ b) (hb2 : b < 2 ^ 60) :
    Paced b (readChunk (b : Int) s r) := by
  have hp2 : Paced b { s with app := r.during s.app, now := s.now + r.latency } :=
    ⟨Nat.le_trans hp.clock (Nat.le_add_right _ _), hp.window, hp.below,
      fun e he => ⟨(hp.past e he).1, Nat.le_trans (hp.past e he).2.1 (Nat.le_add_right _ _),
        (hp.past e he).2.2⟩,
      hp.apart, hp.total⟩
  unfold readChunk
  dsimp only
  split
  · exact paced_account b _ r.n hp2 hn hb1 hb2
  · exact hp2

theorem paced_readLoop (b : Nat) (hb1 : 32768 ≤ b) (hb2 : b < 2 ^ 60) (steps : List ReadStep) :
    ∀ s : Fetch, Paced b s → (∀ r ∈ steps, r.n ≤ 32768) →
      Paced b (readLoop (b : Int) s steps).1 := by
  induction steps with
  | nil => intro s hp _; exact hp
  | cons r rs ih =>
    intro s hp hn
    have hp1 : Paced b { s with app := r.before s.app } :=
      ⟨hp.clock, hp.window, hp.below, hp.past, hp.apart, hp.total⟩
    have hp2 := paced_readChunk b _ r hp1 (hn r (List.mem_cons_self _ _)) hb1 hb2
    have hrs : ∀ r2 ∈ rs, r2.n ≤ 32768 := fun r2 h2 => hn r2 (List.mem_cons_of_mem _ h2)
    simp only [readLoop]
    split
    · exact hp1
    · split
      · exact ih _ hp2 hrs
      · exact hp2
      · exact hp2

theorem steady_readChunk (b a : Nat) (s : Fetch) (r : ReadStep) (hp : Paced b s)
    (hs : Steady b a s) (hl : r.latency = 0) (hn : r.n ≤ 32768) (hb1 : 125000 ≤ b)
    (hb2 : b < 2 ^ 52) : Steady b a (readChunk (b : Int) s r) := by
  have hp2 : Paced b { s with app := r.during s.app, now := s.now + r.latency } :=
    ⟨Nat.le_trans hp.clock (Nat.le_add_right _ _), hp.window, hp.below,
      fun e he => ⟨(hp.past e he).1, Nat.le_trans (hp.past e he).2.1 (Nat.le_add_right _ _),
        (hp.past e he).2.2⟩,
      hp.apart, hp.total⟩
  have hs2 : Steady b a { s with app := r.during s.app, now := s.now + r.latency } := by
    rw [hl]
    exact ⟨hs.lower, hs.upper, hs.early, hs.parts, hs.bound⟩
  unfold readChunk
  dsimp only
  split
  · rename_i hpos
    exact steady_account b a _ r.n hp2 hs2 hpos hn hb1 hb2
  · exact hs2

theorem steady_readLoop (b a : Nat) (hb1 : 125000 ≤ b) (hb2 : b < 2 ^ 52)
    (steps : List ReadStep) :
    ∀ s : Fetch, Paced b s → Steady b a s → (∀ r ∈ steps, r.n ≤ 32768) →
      (∀ r ∈ steps, r.latency = 0) → Steady b a (readLoop (b : Int) s steps).1 := by
  induction steps with
  | nil => intro s _ hs _ _; exact hs
  | cons r rs ih =>
    intro s hp hs hn hl
    have hp1 : Paced b { s with app := r.before s.app } :=
      ⟨hp.clock, hp.window, hp.below, hp.past, hp.apart, hp.total⟩
    have hs1 : Steady b a { s with app := r.before s.app } :=
      ⟨hs.lower, hs.upper, hs.early, hs.parts, hs.bound⟩
    have hb3 : b < 2 ^ 60 := Nat.lt_of_lt_of_le hb2 (by decide)
    have hp2 := paced_readChunk b _ r hp1 (hn r (List.mem_cons_self _ _)) (by omega) hb3
    have hs2 := steady_readChunk b a _ r hp1 hs1 (hl r (List.mem_cons_self _ _))
      (hn r (List.mem_cons_self _ _)) hb1 hb2
    have hrs : ∀ r2 ∈ rs, r2.n ≤ 32768 := fun r2 h2 => hn r2 (List.mem_cons_of_mem _ h2)
    have hls : ∀ r2 ∈ rs, r2.latency = 0 := fun r2 h2 => hl r2 (List.mem_cons_of_mem _ h2)
    simp only [readLoop]
    split
    · exact hs1
    · split
      · exact ih _ hp2 hs2 hrs hls
      · exact hs2
      · exact hs2

theorem steady_init (b a : Nat) (hb : 0 < b) (app : App) (start : Nat) :
    Steady b a (Fetch.init app start) := by
  have hbq : (0 : ℚ) < b := by exact_mod_cast hb
  have hc0 : (0 : ℚ) < 1000000000 / b := div_pos (by norm_num) hbq
  have h0 : bytesWithin (Fetch.init app start).reads a = 0 := rfl
  refine ⟨?_, ?_, fun _ => h0, ⟨0, 0, h0, ?_, ?_, ?_, ?_⟩, ?_⟩
  · simp only [Fetch.init]
    norm_num
  · simp only [Fetch.init]
    norm_num
  · simp [Fetch.init]
  · intro h
    omega
  · intro _ h2
    have h2q : (a : ℚ) ≤ start := by exact_mod_cast h2
    simp only [Fetch.init]
    norm_num
    linarith
  · intro _ h
    omega
  · rw [h0]
    norm_num
    linarith

theorem steady_bytesWithin (b a : Nat) (s : Fetch) (hs : Steady b a s) (hb : 0 < b) :
    (b ≤ 999875000 → bytesWithin s.reads a ≤ b + 32768)
      ∧ 1000000000 * bytesWithin s.reads a ≤ 1000000000 * (b + 32768) + 2 * b := by
  have hbq : (0 : ℚ) < b := by exact_mod_cast hb
  have hc0 : (0 : ℚ) < 1000000000 / b := div_pos (by norm_num) hbq
  have hcb : (b : ℚ) * (1000000000 / b) = 1000000000 := by
    field_simp
  have hbound := hs.bound
  generalize (1000000000 : ℚ) / b = c at hc0 hcb hbound
  constructor
  · intro hle
    by_contra hgt
    have h1 : b + 32769 ≤ bytesWithin s.reads a := by omega
    have h1q : (b : ℚ) + 32769 ≤ bytesWithin s.reads a := by exact_mod_cast h1
    have h2q : (b : ℚ) ≤ 999875000 := by exact_mod_cast hle
    have m1 := mul_le_mul_of_nonneg_right h1q (le_of_lt hc0)
    have m2 := mul_le_mul_of_nonneg_right h2q (le_of_lt hc0)
    linarith
  · have m1 := mul_le_mul_of_nonneg_right hbound (le_of_lt hbq)
    have e1 : (bytesWithin s.reads a : ℚ) * c * b = 1000000000 * bytesWithin s.reads a := by
      rw [mul_assoc, mul_comm c b, hcb]
      ring
    have e2 : (1000000000 + 32768 * c + (1 + 3 / 2 ^ 20)) * (b : ℚ)
        = 1000000000 * (b + 32768) + (1 + 3 / 2 ^ 20) * b := by
      have : 32768 * c * (b : ℚ) = 32768 * (b * c) := by ring
      rw [add_mul, add_mul, this, hcb]
      ring
    rw [e1, e2] at m1
    have m2 : (1000000000 : ℚ) * bytesWithin s.reads a
        ≤ 1000000000 * (b + 32768) + 2 * b := by
      have : (1 + 3 / 2 ^ 20 : ℚ) * b ≤ 2 * b :=
        mul_le_mul_of_nonneg_right (by norm_num) (le_of_lt hbq)
      linarith
    exact_mod_cast m2

theorem paced_init (b : Nat) (hb : 0 < b) (app : App) (start : Nat) :
    Paced b (Fetch.init app start) :=
  ⟨Nat.le_refl _, rfl, hb, fun _ he => absurd he (List.not_mem_nil _),
    fun _ he => absurd he (List.not_mem_nil _), fun _ => Nat.lt_of_lt_of_le hb (Nat.le_add_right _ _)⟩

theorem chunkSum_filter_filter_le (p q : ReadEvent → Bool) (reads : List ReadEvent) :
    chunkSum ((reads.filter p).filter q) ≤ chunkSum (reads.filter q) := by
  induction reads with
  | nil => exact Nat.le_refl _
  | cons e rest ih =>
    by_cases hp : p e = true <;> by_cases hq : q e = true <;>
      simp only [List.filter_cons, hp, hq, if_true, if_false, chunkSum_cons,
        Bool.false_eq_true] <;> omega

theorem chunkSum_le_two (reads : List ReadEvent) (w1 w2 : Nat)
    (h : ∀ e ∈ reads, e.windowStart = w1 ∨ e.windowStart = w2) :
    chunkSum reads ≤ chunkSum (reads.filter (fun e => e.windowStart == w1))
      + chunkSum (reads.filter (fun e => e.windowStart == w2)) := by
  induction reads with
  | nil => exact Nat.zero_le _
  | cons e rest ih =>
    have ih2 := ih (fun x hx => h x (List.mem_cons_of_mem _ hx))
    have he := h e (List.mem_cons_self _ _)
    by_cases h1 : (e.windowStart == w1) = true <;> by_cases h2 : (e.windowStart == w2) = true
    · simp only [List.filter_cons, h1, h2, if_true, chunkSum_cons]
      omega
    · simp only [List.filter_cons, h1, h2, if_true, if_false, chunkSum_cons,
        Bool.false_eq_true]
      omega
    · simp only [List.filter_cons, h1, h2, if_true, if_false, chunkSum_cons,
        Bool.false_eq_true]
      omega
    · exfalso
      rcases he with he | he
      · exact h1 (by simpa using he)
      · exact h2 (by simpa using he)

theorem two_windows (reads : List ReadEvent)
    (h3 : ∀ e1 ∈ reads, ∀ e2 ∈ reads, ∀ e3 ∈ reads,
      e1.windowStart = e2.windowStart ∨ e1.windowStart = e3.windowStart
        ∨ e2.windowStart = e3.windowStart) :
    ∃ w1 w2 : Nat, ∀ e ∈ reads, e.windowStart = w1 ∨ e.windowStart = w2 := by
  cases reads with
  | nil => exact ⟨0, 0, fun _ he => absurd he (List.not_mem_nil _)⟩
  | cons e1 rest =>
    by_cases hall : ∀ e ∈ e1 :: rest, e.windowStart = e1.windowStart
    · exact ⟨e1.windowStart, e1.windowStart, fun e he => Or.inl (hall e he)⟩
    · have hex : ∃ g, g ∈ e1 :: rest ∧ g.windowStart ≠ e1.windowStart := by
        by_contra hno
        apply hall
        intro e he
        by_contra hne
        exact hno ⟨e, he, hne⟩
      obtain ⟨g, hg, hgne⟩ := hex
      refine ⟨e1.windowStart, g.windowStart, fun e he => ?_⟩
      have := h3 e1 (List.mem_cons_self _ _) g hg e he
      rcases this with h | h | h
      · exact absurd h.symm hgne
      · exact Or.inl h.symm
      · exact Or.inr h.symm

theorem paced_bytesWithin (b : Nat) (s : Fetch) (hp : Paced b s) (a : Nat) :
    bytesWithin s.reads a < 2 * (b + 32768) := by
  have hin : ∀ e ∈ s.reads.filter
      (fun e => decide (a ≤ e.time) && decide (e.time < a + 1000000000)),
      e ∈ s.reads ∧ a ≤ e.time ∧ e.time < a + 1000000000 := by
    intro e he
    have := List.mem_filter.mp he
    refine ⟨this.1, ?_⟩
    simpa using this.2
  have h3 : ∀ e1 ∈ s.reads.filter
      (fun e => decide (a ≤ e.time) && decide (e.time < a + 1000000000)),
      ∀ e2 ∈ s.reads.filter
        (fun e => decide (a ≤ e.time) && decide (e.time < a + 1000000000)),
      ∀ e3 ∈ s.reads.filter
        (fun e => decide (a ≤ e.time) && decide (e.time < a + 1000000000)),
      e1.windowStart = e2.windowStart ∨ e1.windowStart = e3.windowStart
        ∨ e2.windowStart = e3.windowStart := by
    intro e1 h1 e2 h2 e3 h3
    obtain ⟨m1, l1, u1⟩ := hin e1 h1
    obtain ⟨m2, l2, u2⟩ := hin e2 h2
    obtain ⟨m3, l3, u3⟩ := hin e3 h3
    have p1 := (hp.past e1 m1).1
    have p2 := (hp.past e2 m2).1
    have p3 := (hp.past e3 m3).1
    have a12 := hp.apart e1 m1 e2 m2
    have a13 := hp.apart e1 m1 e3 m3
    have a21 := hp.apart e2 m2 e1 m1
    have a23 := hp.apart e2 m2 e3 m3
    have a31 := hp.apart e3 m3 e1 m1
    have a32 := hp.apart e3 m3 e2 m2
    omega
  obtain ⟨w1, w2, hw⟩ := two_windows _ h3
  have hsum := chunkSum_le_two _ w1 w2 hw
  have hle1 := chunkSum_filter_filter_le
    (fun e => decide (a ≤ e.time) && decide (e.time < a + 1000000000))
    (fun e => e.windowStart == w1) s.reads
  have hle2 := chunkSum_filter_filter_le
    (fun e => decide (a ≤ e.time) && decide (e.time < a + 1000000000))
    (fun e => e.windowStart == w2) s.reads
  have t1 := hp.total w1
  have t2 := hp.total w2
  unfold windowTotal at t1 t2
  unfold bytesWithin
  omega

theorem bytesPerSecOf_eq (speedLimitMbps : Int) (hpos : 0 < speedLimitMbps)
    (hfit : speedLimitMbps * 1000000 < 2 ^ 63) :
    bytesPerSecOf speedLimitMbps = (((speedLimitMbps * 125000).toNat : Nat) : Int)
      ∧ speedLimitMbps * 1000000 / 8 = speedLimitMbps * 125000 := by
  unfold bytesPerSecOf
  rw [toInt64_of_range speedLimitMbps (by omega) (by omega),
    toInt64_of_range (speedLimitMbps * 1000000) (by omega) (by omega),
    Int.tdiv_eq_ediv (by omega) (by decide)]
  constructor <;> omega

/-- Claim C1 as stated fails: at 1 Mbps (125000 bytes per second) the loop
lets the seven chunks of `burstBody` through without sleeping, because each
accounting window begins with a stall that the later chunks may catch up on;
229376 bytes are read during the second that starts at 0.9 s, more than
`125000 + 32768`. -/
theorem doDownload_burst_exceeds :
    bytesWithin
        (doDownload (sampleApp (sampleConfig 200 "00:00" "23:59" []) 0 "2025-01-01" [] true) 1
          (Response.arrived 200 burstBody) 0).state.reads 900000000 = 229376
      ∧ (1 : Int) * 1000000 / 8 + 32768 < 229376 := by
  decide!

/-- Claim C1, amended: for every `speedLimitMbps > 0` whose rate computation
`int64(speedLimitMbps) * 1000000` does not wrap and every sequence of chunk
reads of at most 32768 bytes each, under a clock that moves only while a
read blocks and while the loop sleeps. If no read blocks, the bytes read
during any one-second interval do not exceed `speedLimitMbps * 1000000 / 8`
by more than one chunk size (32768 bytes) for every limit up to 7999 Mbps,
and for a higher limit (the rate below `2 ^ 52`) by no more than one chunk
size and the bytes of two nanoseconds at the rate, the expected duration
being cut to whole nanoseconds. If reads block, for any time each, the bytes
read during any one-second interval stay below twice
`speedLimitMbps * 1000000 / 8 + 32768`, and the bytes counted in one
accounting window of the loop stay below `speedLimitMbps * 1000000 / 8 +
32768`; every chunk is read at or after the start of its window, and two
different windows start at least one second apart. The chunks counted are
the non-empty ones among the reads performed, when no other goroutine writes
the counters. -/
theorem doDownload_paced (app : App) (speedLimitMbps : Int) (body : List ReadStep)
    (start : Nat) (out : Download)
    (hout : out = doDownload app speedLimitMbps (Response.arrived 200 body) start)
    (hpos : 0 < speedLimitMbps) (hfit : speedLimitMbps * 1000000 < 2 ^ 63)
    (hchunk : ∀ r ∈ body, r.n ≤ 32768) :
    ((∀ r ∈ body, r.latency = 0) → speedLimitMbps ≤ 7999 →
        ∀ a : Nat,
          (bytesWithin out.state.reads a : Int) ≤ speedLimitMbps * 1000000 / 8 + 32768)
      ∧ ((∀ r ∈ body, r.latency = 0) → speedLimitMbps * 125000 < 2 ^ 52 →
        ∀ a : Nat,
          1000000000 * ((bytesWithin out.state.reads a : Int)
              - (speedLimitMbps * 1000000 / 8 + 32768))
            ≤ 2 * (speedLimitMbps * 1000000 / 8))
      ∧ (∀ a : Nat,
        (bytesWithin out.state.reads a : Int) < 2 * (speedLimitMbps * 1000000 / 8 + 32768))
      ∧ (∀ w : Nat,
        (windowTotal out.state.reads w : Int) < speedLimitMbps * 1000000 / 8 + 32768)
      ∧ (∀ e ∈ out.state.reads, e.windowStart ≤ e.time)
      ∧ (∀ e1 ∈ out.state.reads, ∀ e2 ∈ out.state.reads,
          e1.windowStart < e2.windowStart → e1.windowStart + 1000000000 ≤ e2.windowStart)
      ∧ ((∀ r ∈ body, KeepsCounters r.before ∧ KeepsCounters r.during) →
          app.stats.TodayBytes < 2 ^ 64 → app.bytesThisSecond < 2 ^ 64 →
          out.state.reads.map ReadEvent.n = (chunksRead app body).filter (fun n => 0 < n)) := by
  obtain ⟨hb, hdiv⟩ := bytesPerSecOf_eq speedLimitMbps hpos hfit
  have hd : (doDownload app speedLimitMbps (Response.arrived 200 body) start).state
      = (readLoop (((speedLimitMbps * 125000).toNat : Nat) : Int) (Fetch.init app start) body).1 := by
    simp [doDownload, hb]
  have hp := paced_readLoop (speedLimitMbps * 125000).toNat (by omega) (by omega) body
    (Fetch.init app start) (paced_init _ (by omega) app start) hchunk
  have hst : (∀ r ∈ body, r.latency = 0) → speedLimitMbps * 125000 < 2 ^ 52 → ∀ a : Nat,
      Steady (speedLimitMbps * 125000).toNat a
        (readLoop (((speedLimitMbps * 125000).toNat : Nat) : Int) (Fetch.init app start) body).1 :=
    fun hl h52 a => steady_readLoop (speedLimitMbps * 125000).toNat a (by omega) (by omega) body
      (Fetch.init app start) (paced_init _ (by omega) app start)
      (steady_init _ a (by omega) app start) hchunk hl
  rw [hout, hd, hdiv]
  refine ⟨fun hl h7999 a => ?_, fun hl h52 a => ?_, fun a => ?_, fun w => ?_,
    fun e he => (hp.past e he).1, fun e1 h1 e2 h2 hlt => (hp.apart e1 h1 e2 h2 hlt).1,
    fun hothers htoday hsec => ?_⟩
  · have := (steady_bytesWithin _ a _ (hst hl (by omega) a) (by omega)).1 (by omega)
    omega
  · have := (steady_bytesWithin _ a _ (hst hl h52 a) (by omega)).2
    omega
  · have := paced_bytesWithin _ _ hp a
    omega
  · have := hp.total w
    omega
  · have h := (readLoop_tally (((speedLimitMbps * 125000).toNat : Nat) : Int) body
      (Fetch.init app start) hothers ⟨Nat.pos_of_ne_zero (by decide), htoday, hsec⟩).1
    rw [h]
    simp [Fetch.init]

/-- The amended claim C1 at 5 Mbps on a body of two chunks that arrive
without blocking: the 33768 bytes read during the first second do not exceed
`625000 + 32768`. -/
theorem doDownload_paced_witness :
    bytesWithin
        (doDownload (sampleApp (sampleConfig 200 "00:00" "23:59" []) 0 "2025-01-01" [] true) 5
          (Response.arrived 200 [quietStep 0 32768 ReadErr.nil, quietStep 0 1000 ReadErr.eof])
          0).state.reads 0 = 33768
      ∧ (bytesWithin
        (doDownload (sampleApp (sampleConfig 200 "00:00" "23:59" []) 0 "2025-01-01" [] true) 5
          (Response.arrived 200 [quietStep 0 32768 ReadErr.nil, quietStep 0 1000 ReadErr.eof])
          0).state.reads 0 : Int)
        ≤ (5 : Int) * 1000000 / 8 + 32768 :=
  ⟨by decide!,
    (doDownload_paced (sampleApp (sampleConfig 200 "00:00" "23:59" []) 0 "2025-01-01" [] true) 5
      [quietStep 0 32768 ReadErr.nil, quietStep 0 1000 ReadErr.eof] 0 _ rfl (by decide)
      (by decide)
      (by
        intro r hr
        simp only [List.mem_cons, List.mem_singleton, List.not_mem_nil, or_false] at hr
        rcases hr with h | h <;> rw [h] <;> decide)).1
      (by
        intro r hr
        simp only [List.mem_cons, List.mem_singleton, List.not_mem_nil, or_false] at hr
        rcases hr with h | h <;> rw [h] <;> rfl)
      (by decide) 0⟩

end DownOnly
